import Mathlib

/-!
Verification development for the Dolby.io comms-sdk-unreal plugin's
track/participant reconciler and connection-state machine.

The definitions below are a shallow embedding of the C++ code in
`src/DolbyIO/Source/Private/Subsystem/DolbyIOInitialization.cpp` (the
newer-generation subsystem: `ProcessBufferedVideoTracks`,
`Handle(remote_video_track_added/removed)`, `Handle(utils::vfs_event)`,
`GetTexture`, `BindMaterial`, `UnbindMaterial`) and of `FSdkAccess`
(`Connect`, `Disconnect`, `MuteInput`, `MuteOutput`, `UpdateViewPoint`).

Unreal `TMap` is embedded as an association list with unique-key
semantics (`mapEmplace` replaces, `mapRemove` deletes the key,
`TMap::operator[]` is a checked lookup that fails when the key is
absent — embedded as `Option`). `FString` is embedded as `String`,
material handles as `Nat`.

A few collaborators of the reconciler are declared but not defined under
`src/` (the `FVideoSink` texture machinery and the `Handle` overloads for
`remote_participant_added/updated` that call `ProcessBufferedVideoTracks`,
and the `FSdkStatus` state holder). Those are modelled from the spec; each
such definition carries a doc comment saying so.
-/

/-- A remote video track, `FDolbyIOVideoTrack` from the source:
{TrackID, ParticipantID}. -/
structure FDolbyIOVideoTrack where
  trackID : String
  participantID : String
deriving DecidableEq, Repr

/-- Broadcast notifications observable downstream, one constructor per
`BroadcastEvent` call reachable from the reconciler handlers. -/
inductive FOut where
  | videoTrackAdded (t : FDolbyIOVideoTrack)
  | videoTrackEnabled (t : FDolbyIOVideoTrack)
  | videoTrackRemoved (t : FDolbyIOVideoTrack)
  | videoTrackDisabled (t : FDolbyIOVideoTrack)
deriving DecidableEq, Repr

/-- The two lambdas the source passes to `FVideoSink::OnTextureCreated`:
the direct-emit lambda of `Handle(const remote_video_track_added&)`
(line 418) and the drain lambda of `ProcessBufferedVideoTracks`
(lines 378-399). -/
inductive FSinkCallback where
  | emitAdded (t : FDolbyIOVideoTrack)
  | drainAdded (participantID : String) (t : FDolbyIOVideoTrack)
deriving DecidableEq, Repr

/-- Modelled from the spec: `FVideoSink` is declared but not defined under
`src/`. Per the spec's surface gating ("buffers ... notifications that
arrive before the track's renderable surface exists; replays them in
original order once the prerequisite state appears"), a sink records
whether its texture has been created, the callbacks deferred until that
happens (in registration order), and the materials currently bound to it. -/
structure FVideoSink where
  textureCreated : Bool
  pendingCallbacks : List FSinkCallback
  boundMaterials : List Nat
deriving DecidableEq, Repr

/-- A sink as freshly constructed by `std::make_shared<FVideoSink>(TrackID)`:
no texture yet, nothing deferred, nothing bound. -/
def freshSink : FVideoSink :=
  { textureCreated := false, pendingCallbacks := [], boundMaterials := [] }

/-- Modelled from the spec: `FVideoSink::BindMaterial` (not under `src/`)
adds a material to the sink's set of bound materials. -/
def FVideoSink.bindMaterial (s : FVideoSink) (m : Nat) : FVideoSink :=
  if m ∈ s.boundMaterials then s
  else { s with boundMaterials := s.boundMaterials ++ [m] }

/-- Modelled from the spec: `FVideoSink::UnbindMaterial` (not under `src/`)
removes a material from the sink's set of bound materials. -/
def FVideoSink.unbindMaterial (s : FVideoSink) (m : Nat) : FVideoSink :=
  { s with boundMaterials := s.boundMaterials.filter (fun x => decide (x ≠ m)) }

/-- Modelled from the spec: `FVideoSink::UnbindAllMaterials` (not under
`src/`) clears the sink's bound materials. -/
def FVideoSink.unbindAllMaterials (s : FVideoSink) : FVideoSink :=
  { s with boundMaterials := [] }

/-- `TMap::Find`: first value stored under the key, if any. -/
def mapFind (k : String) : List (String × α) → Option α
  | [] => none
  | (k', v) :: rest => if k' = k then some v else mapFind k rest

/-- `TMap::Emplace(Key, Value)`: replace the value under the key, or append
a new entry. -/
def mapEmplace (k : String) (v : α) : List (String × α) → List (String × α)
  | [] => [(k, v)]
  | (k', v') :: rest => if k' = k then (k, v) :: rest else (k', v') :: mapEmplace k v rest

/-- `TMap::Remove(Key)`: delete the key entirely. -/
def mapRemove (k : String) : List (String × α) → List (String × α)
  | [] => []
  | (k', v) :: rest => if k' = k then mapRemove k rest else (k', v) :: mapRemove k rest

/-- Adjust the value stored under a key, leaving the map unchanged when the
key is absent (mutation through a `TMap::Find` pointer). -/
def mapAdjust (k : String) (f : α → α) : List (String × α) → List (String × α)
  | [] => []
  | (k', v) :: rest => if k' = k then (k', f v) :: rest else (k', v) :: mapAdjust k f rest

/-- `Map.FindOrAdd(Key).Add(Value)`: append to the array stored under the
key, creating a singleton entry when the key is absent. -/
def mapFindOrAddAppend (k : String) (t : α) : List (String × List α) → List (String × List α)
  | [] => [(k, [t])]
  | (k', ts) :: rest =>
    if k' = k then (k', ts ++ [t]) :: rest else (k', ts) :: mapFindOrAddAppend k t rest

/-- Reconciler-relevant state of `UDolbyIOSubsystem`: the known remote
participants, the video sinks keyed by TrackID, and the two pending maps. -/
structure SubsystemState where
  remoteParticipants : List String
  videoSinks : List (String × FVideoSink)
  bufferedAddedVideoTracks : List (String × List FDolbyIOVideoTrack)
  bufferedEnabledVideoTracks : List (String × List FDolbyIOVideoTrack)
deriving DecidableEq, Repr

/-- State before any remote-track event: empty maps. -/
def initSt : SubsystemState :=
  { remoteParticipants := [], videoSinks := [],
    bufferedAddedVideoTracks := [], bufferedEnabledVideoTracks := [] }

/-- `UDolbyIOSubsystem::GetTexture` (lines 350-357): the sink's texture if
the TrackID is a key of `VideoSinks`, null otherwise. Embedded as the
Boolean "a non-null texture exists". -/
def GetTexture (st : SubsystemState) (videoTrackID : String) : Bool :=
  match mapFind videoTrackID st.videoSinks with
  | some s => s.textureCreated
  | none => false

/-- Scan `EnabledTracksRef` by index for the first entry whose `TrackID`
matches, returning it together with the rest after `RemoveAt(i)`
(lines 385-397). -/
def extractFirst (tid : String) : List FDolbyIOVideoTrack →
    Option (FDolbyIOVideoTrack × List FDolbyIOVideoTrack)
  | [] => none
  | t :: ts =>
    if t.trackID = tid then some (t, ts)
    else match extractFirst tid ts with
      | some (e, rest) => some (e, t :: rest)
      | none => none

/-- Body of an `OnTextureCreated` callback. `emitAdded` broadcasts
"video track added" (line 418). `drainAdded` is the drain lambda of
`ProcessBufferedVideoTracks` (lines 378-399): broadcast "added", then
scan `BufferedEnabledVideoTracks[ParticipantID]` for the first matching
TrackID, broadcasting "enabled" and removing it (dropping the key when the
array empties). -/
def runCallback (st : SubsystemState) : FSinkCallback → SubsystemState × List FOut
  | .emitAdded t => (st, [FOut.videoTrackAdded t])
  | .drainAdded participantID t =>
    match mapFind participantID st.bufferedEnabledVideoTracks with
    | none => (st, [FOut.videoTrackAdded t])
    | some ets =>
      match extractFirst t.trackID ets with
      | none => (st, [FOut.videoTrackAdded t])
      | some (e, rest) =>
        let be :=
          if rest.isEmpty then mapRemove participantID st.bufferedEnabledVideoTracks
          else mapAdjust participantID (fun _ => rest) st.bufferedEnabledVideoTracks
        ({ st with bufferedEnabledVideoTracks := be },
         [FOut.videoTrackAdded t, FOut.videoTrackEnabled e])

/-- `VideoSinks[TrackID]->OnTextureCreated(Callback)`: checked map lookup
(`TMap::operator[]` fails when the key is absent), then — modelled from the
spec's surface gating, `FVideoSink` not being under `src/` — run the
callback now if the texture exists, else defer it in registration order. -/
def onTextureCreated (st : SubsystemState) (sinkID : String) (cb : FSinkCallback) :
    Option (SubsystemState × List FOut) :=
  match mapFind sinkID st.videoSinks with
  | none => none
  | some s =>
    if s.textureCreated then some (runCallback st cb)
    else
      let sinks1 :=
        mapAdjust sinkID
          (fun s' => { s' with pendingCallbacks := s'.pendingCallbacks ++ [cb] })
          st.videoSinks
      some ({ st with videoSinks := sinks1 }, [])

/-- Run a sink's deferred callbacks in order, threading the state and
concatenating broadcasts. -/
def runCallbacks (st : SubsystemState) : List FSinkCallback → SubsystemState × List FOut
  | [] => (st, [])
  | cb :: cbs =>
    let r1 := runCallback st cb
    let r2 := runCallbacks r1.1 cbs
    (r2.1, r1.2 ++ r2.2)

/-- Modelled from the spec: creation of a track's renderable surface
(`FVideoSink` texture, not under `src/`). When the sink exists, mark its
texture created and fire the deferred callbacks in registration order; a
frame for an unknown track does nothing. -/
def handleTextureCreated (st : SubsystemState) (sinkID : String) :
    SubsystemState × List FOut :=
  match mapFind sinkID st.videoSinks with
  | none => (st, [])
  | some s =>
    let sinks1 :=
      mapAdjust sinkID
        (fun s' => { s' with textureCreated := true, pendingCallbacks := [] })
        st.videoSinks
    runCallbacks { st with videoSinks := sinks1 } s.pendingCallbacks

/-- `UDolbyIOSubsystem::Handle(const remote_video_track_added&)`
(lines 405-426): emplace a fresh sink for the TrackID; if the owning
participant is known, defer a "track added" broadcast on texture creation,
otherwise buffer the track under its ParticipantID. -/
def HandleRemoteVideoTrackAdded (st : SubsystemState) (t : FDolbyIOVideoTrack) :
    Option (SubsystemState × List FOut) :=
  let st1 := { st with videoSinks := mapEmplace t.trackID freshSink st.videoSinks }
  if t.participantID ∈ st1.remoteParticipants then
    onTextureCreated st1 t.trackID (.emitAdded t)
  else
    some ({ st1 with bufferedAddedVideoTracks :=
              mapFindOrAddAppend t.participantID t st1.bufferedAddedVideoTracks },
          [])

/-- `UDolbyIOSubsystem::Handle(const remote_video_track_removed&)`
(lines 428-436): checked lookup `VideoSinks[TrackID]` (fails when the key
is absent), `UnbindAllMaterials`, remove the sink, broadcast "removed".
The pending maps are not touched. -/
def HandleRemoteVideoTrackRemoved (st : SubsystemState) (t : FDolbyIOVideoTrack) :
    Option (SubsystemState × List FOut) :=
  match mapFind t.trackID st.videoSinks with
  | none => none
  | some _ =>
    let sinks1 := mapAdjust t.trackID FVideoSink.unbindAllMaterials st.videoSinks
    some ({ st with videoSinks := mapRemove t.trackID sinks1 },
          [FOut.videoTrackRemoved t])

/-- The `new_enabled` loop of `UDolbyIOSubsystem::Handle(const
utils::vfs_event&)` (lines 440-454): per track, broadcast "enabled" when
`GetTexture` is non-null, else buffer under the ParticipantID. -/
def handleVfsEnabledList (st : SubsystemState) :
    List FDolbyIOVideoTrack → SubsystemState × List FOut
  | [] => (st, [])
  | t :: ts =>
    if GetTexture st t.trackID then
      let r := handleVfsEnabledList st ts
      (r.1, FOut.videoTrackEnabled t :: r.2)
    else
      handleVfsEnabledList
        { st with bufferedEnabledVideoTracks :=
            mapFindOrAddAppend t.participantID t st.bufferedEnabledVideoTracks } ts

/-- `UDolbyIOSubsystem::Handle(const utils::vfs_event&)` (lines 438-461):
process `new_enabled`, then broadcast "disabled" for each `new_disabled`
track. -/
def HandleVfsEvent (st : SubsystemState)
    (newEnabled newDisabled : List FDolbyIOVideoTrack) : SubsystemState × List FOut :=
  let r := handleVfsEnabledList st newEnabled
  (r.1, r.2 ++ newDisabled.map FOut.videoTrackDisabled)

/-- The `for (const FDolbyIOVideoTrack& AddedTrack : *AddedTracks)` loop of
`ProcessBufferedVideoTracks` (lines 375-400): register the drain lambda on
each buffered track's sink via the checked lookup `VideoSinks[TrackID]`. -/
def drainLoop (participantID : String) (st : SubsystemState) :
    List FDolbyIOVideoTrack → Option (SubsystemState × List FOut)
  | [] => some (st, [])
  | t :: ts =>
    match onTextureCreated st t.trackID (.drainAdded participantID t) with
    | none => none
    | some (st1, os1) =>
      match drainLoop participantID st1 ts with
      | none => none
      | some (st2, os2) => some (st2, os1 ++ os2)

/-- `UDolbyIOSubsystem::ProcessBufferedVideoTracks` (lines 371-403): when
the participant has buffered added tracks, register the drain lambda for
each in buffer order, then remove the participant's entry from
`BufferedAddedVideoTracks`. -/
def ProcessBufferedVideoTracks (st : SubsystemState) (participantID : String) :
    Option (SubsystemState × List FOut) :=
  match mapFind participantID st.bufferedAddedVideoTracks with
  | none => some (st, [])
  | some ts =>
    match drainLoop participantID st ts with
    | none => none
    | some (st1, os) =>
      some ({ st1 with bufferedAddedVideoTracks :=
                mapRemove participantID st1.bufferedAddedVideoTracks }, os)

/-- Modelled from the spec: the `Handle(remote_participant_added/updated)`
callers of `ProcessBufferedVideoTracks` are not under `src/`. Per the spec
("called when a participant record becomes available (created or updated
with non-empty status)"), record the participant as known and drain. -/
def OnParticipantKnown (st : SubsystemState) (participantID : String) :
    Option (SubsystemState × List FOut) :=
  let rp :=
    if participantID ∈ st.remoteParticipants then st.remoteParticipants
    else st.remoteParticipants ++ [participantID]
  ProcessBufferedVideoTracks { st with remoteParticipants := rp } participantID

/-- Modelled from the spec: the `remote_participant_added` handler of the
reconciler generation (not under `src/`) records the participant record
(non-empty status) and calls `ProcessBufferedVideoTracks`. -/
def HandleRemoteParticipantAdded (st : SubsystemState) (participantID : String) :
    Option (SubsystemState × List FOut) :=
  OnParticipantKnown st participantID

/-- Modelled from the spec: the `remote_participant_updated` handler of the
reconciler generation (not under `src/`) updates the participant record
(non-empty status) and calls `ProcessBufferedVideoTracks`. -/
def HandleRemoteParticipantUpdated (st : SubsystemState) (participantID : String) :
    Option (SubsystemState × List FOut) :=
  OnParticipantKnown st participantID

/-- The unbind loop of `UDolbyIOSubsystem::BindMaterial` (lines 328-334):
unbind the material from every sink whose key differs from the target
TrackID. -/
def unbindFromOthers (m : Nat) (videoTrackID : String) :
    List (String × FVideoSink) → List (String × FVideoSink)
  | [] => []
  | (k, s) :: rest =>
    (k, if k = videoTrackID then s else s.unbindMaterial m) ::
      unbindFromOthers m videoTrackID rest

/-- `UDolbyIOSubsystem::BindMaterial` (lines 326-340): unbind the material
from every other sink, then bind it to the target sink when `Find`
succeeds (the lookup-miss branch binds nothing). -/
def BindMaterial (st : SubsystemState) (m : Nat) (videoTrackID : String) :
    SubsystemState :=
  let sinks1 := unbindFromOthers m videoTrackID st.videoSinks
  { st with videoSinks := mapAdjust videoTrackID (fun s => s.bindMaterial m) sinks1 }

/-- `UDolbyIOSubsystem::UnbindMaterial` (lines 342-348): unbind only from
the target sink when `Find` succeeds; a miss changes nothing. -/
def UnbindMaterial (st : SubsystemState) (m : Nat) (videoTrackID : String) :
    SubsystemState :=
  { st with videoSinks := mapAdjust videoTrackID (fun s => s.unbindMaterial m) st.videoSinks }

/-- Events delivered to the reconciler by the SDK (texture creation is the
engine-side surface event; the vfs event is embedded one track at a
time). -/
inductive Ev where
  | participantKnown (participantID : String)
  | trackAdded (t : FDolbyIOVideoTrack)
  | trackRemoved (t : FDolbyIOVideoTrack)
  | vfsEnabled (t : FDolbyIOVideoTrack)
  | vfsDisabled (t : FDolbyIOVideoTrack)
  | textureCreated (videoTrackID : String)
deriving DecidableEq, Repr

/-- Dispatch one event to its handler. -/
def step (st : SubsystemState) : Ev → Option (SubsystemState × List FOut)
  | .participantKnown p => OnParticipantKnown st p
  | .trackAdded t => HandleRemoteVideoTrackAdded st t
  | .trackRemoved t => HandleRemoteVideoTrackRemoved st t
  | .vfsEnabled t => some (HandleVfsEvent st [t] [])
  | .vfsDisabled t => some (HandleVfsEvent st [] [t])
  | .textureCreated id => some (handleTextureCreated st id)

/-- Run a sequence of events, threading the state, concatenating
broadcasts, and propagating a checked-lookup failure. -/
def run (st : SubsystemState) : List Ev → Option (SubsystemState × List FOut)
  | [] => some (st, [])
  | e :: es =>
    match step st e with
    | none => none
    | some (st1, os1) =>
      match run st1 es with
      | none => none
      | some (st2, os2) => some (st2, os1 ++ os2)

/-- Broadcasts of a run from the initial state (empty when the run hits a
checked-lookup failure). -/
def outs (es : List Ev) : List FOut :=
  match run initSt es with
  | some (_, os) => os
  | none => []

/-- Follows the spec's words (§4.1 `OnParticipantKnown`): "for each also
checks PendingEnabledTracks for a matching TrackID, emitting 'track
enabled' immediately after if present and removing it from the pending
set". Returns the matched entry, if any, and the pending-enabled map after
its removal. -/
def specDrainMatch (participantID trackID : String)
    (pendingEnabled : List (String × List FDolbyIOVideoTrack)) :
    Option FDolbyIOVideoTrack × List (String × List FDolbyIOVideoTrack) :=
  match mapFind participantID pendingEnabled with
  | none => (none, pendingEnabled)
  | some ets =>
    match extractFirst trackID ets with
    | none => (none, pendingEnabled)
    | some (e, rest) =>
      (some e,
       if rest.isEmpty then mapRemove participantID pendingEnabled
       else mapAdjust participantID (fun _ => rest) pendingEnabled)

/-- Follows the spec's words (§4.1 `OnParticipantKnown`): "Drains
PendingAddedTracks for that ParticipantID in FIFO order, emitting 'track
added' for each", with the matched "track enabled" immediately after each
when present. Returns the emissions and the final pending-enabled map. -/
def specDrain (participantID : String) :
    List FDolbyIOVideoTrack → List (String × List FDolbyIOVideoTrack) →
    List FOut × List (String × List FDolbyIOVideoTrack)
  | [], pendingEnabled => ([], pendingEnabled)
  | t :: ts, pendingEnabled =>
    let m := specDrainMatch participantID t.trackID pendingEnabled
    let r := specDrain participantID ts m.2
    (FOut.videoTrackAdded t ::
       ((match m.1 with
         | some e => [FOut.videoTrackEnabled e]
         | none => []) ++ r.1),
     r.2)

/-- The "added" tracks of an emission sequence, in order. -/
def addedTracksOf (os : List FOut) : List FDolbyIOVideoTrack :=
  os.filterMap fun o =>
    match o with
    | FOut.videoTrackAdded t => some t
    | _ => none

/-- Connection states of the thin state machine around `FSdkAccess`. -/
inductive EConnState where
  | disconnected
  | connecting
  | connected
  | disconnecting
deriving DecidableEq, Repr

/-- Modelled from the spec: `FSdkStatus` (not under `src/`) holds the
connection state; `OnConnecting/OnConnected/OnDisconnecting/OnDisconnected`
set the corresponding state, `IsConnected/IsDisconnected` test it. The
`FSdkAccess` embedding keeps that state and whether the SDK was created
(`Sdk` non-null). -/
structure FSdkAccess where
  hasSdk : Bool
  status : EConnState
deriving DecidableEq, Repr

/-- `FSdkAccess::Connect` (lines 703-758): throws (caught by
`DLB_CATCH_ALL`, leaving state unchanged and starting no SDK call) unless
the SDK exists, the conference and user names are non-empty, and the state
is disconnected; otherwise `Status.OnConnecting()` and the asynchronous
session-open chain starts. The Boolean reports whether that chain was
started. -/
def FSdkAccess.Connect (a : FSdkAccess) (conf user : String) : FSdkAccess × Bool :=
  if !a.hasSdk then (a, false)
  else if conf.isEmpty || user.isEmpty then (a, false)
  else if a.status ≠ EConnState.disconnected then (a, false)
  else ({ a with status := EConnState.connecting }, true)

/-- The `.then([this](auto&&) { Status.OnConnected(); })` completion of the
connect chain (line 755). -/
def FSdkAccess.onConnectFinished (a : FSdkAccess) : FSdkAccess :=
  { a with status := EConnState.connected }

/-- `FSdkAccess::Disconnect` (lines 795-806): `DLB_MUST_BE_CONNECTED`
returns early unless connected; otherwise `Status.OnDisconnecting()` and
the asynchronous leave/close chain starts. -/
def FSdkAccess.Disconnect (a : FSdkAccess) : FSdkAccess × Bool :=
  if a.status = EConnState.connected then
    ({ a with status := EConnState.disconnecting }, true)
  else (a, false)

/-- The `.then([this] { Status.OnDisconnected(); })` completion of the
disconnect chain (line 803). -/
def FSdkAccess.onDisconnectFinished (a : FSdkAccess) : FSdkAccess :=
  { a with status := EConnState.disconnected }

/-- `FSdkAccess::MuteInput` (lines 808-813): `DLB_MUST_BE_CONNECTED`, then
`conference().mute(...)`. The Boolean reports whether the SDK call was
made; the state is never changed. -/
def FSdkAccess.MuteInput (a : FSdkAccess) (_bIsMuted : Bool) : FSdkAccess × Bool :=
  if a.status = EConnState.connected then (a, true) else (a, false)

/-- `FSdkAccess::MuteOutput` (lines 815-820): `DLB_MUST_BE_CONNECTED`, then
`conference().mute_output(...)`. -/
def FSdkAccess.MuteOutput (a : FSdkAccess) (_bIsMuted : Bool) : FSdkAccess × Bool :=
  if a.status = EConnState.connected then (a, true) else (a, false)

/-- `FSdkAccess::UpdateViewPoint` (lines 836-867): `DLB_MUST_BE_CONNECTED`,
then the spatial-audio batch update is sent (payload omitted here). -/
def FSdkAccess.UpdateViewPoint (a : FSdkAccess) : FSdkAccess × Bool :=
  if a.status = EConnState.connected then (a, true) else (a, false)

/-- One step along the cyclic state machine, or staying put:
disconnected → connecting → connected → disconnecting → disconnected. -/
def cycleOk (s s' : EConnState) : Prop :=
  s' = s ∨
  (s = EConnState.disconnected ∧ s' = EConnState.connecting) ∨
  (s = EConnState.connecting ∧ s' = EConnState.connected) ∨
  (s = EConnState.connected ∧ s' = EConnState.disconnecting) ∨
  (s = EConnState.disconnecting ∧ s' = EConnState.disconnected)

/-- The TrackID a deferred callback concerns. -/
def cbTrackID : FSinkCallback → String
  | .emitAdded t => t.trackID
  | .drainAdded _ t => t.trackID

/-- A `remote_video_track_added` event carrying this TrackID occurred in
the event sequence. -/
def pastHasTrackAdded (es : List Ev) (trackID : String) : Prop :=
  ∃ p', Ev.trackAdded ⟨trackID, p'⟩ ∈ es

/-- Every video sink's key stems from a track-added event. -/
def sinksTA (es : List Ev) (st : SubsystemState) : Prop :=
  ∀ kv ∈ st.videoSinks, pastHasTrackAdded es kv.1

/-- Every deferred sink callback concerns a track-added event's TrackID. -/
def cbsTA (es : List Ev) (st : SubsystemState) : Prop :=
  ∀ kv ∈ st.videoSinks, ∀ cb ∈ kv.2.pendingCallbacks,
    pastHasTrackAdded es (cbTrackID cb)

/-- Every pending-added track stems from a track-added event. -/
def bufTA (es : List Ev) (st : SubsystemState) : Prop :=
  ∀ kv ∈ st.bufferedAddedVideoTracks, ∀ t ∈ kv.2, pastHasTrackAdded es t.trackID

/-- Trace invariant tying reconciler state to past track-added events. -/
def InvTA (es : List Ev) (st : SubsystemState) : Prop :=
  sinksTA es st ∧ cbsTA es st ∧ bufTA es st

theorem mapFind_mapRemove_self {α : Type} (k : String) (l : List (String × α)) :
    mapFind k (mapRemove k l) = none := by
  induction l with
  | nil => rfl
  | cons kv rest ih =>
    obtain ⟨k', v⟩ := kv
    by_cases h : k' = k
    · simp [mapRemove, h, ih]
    · simp [mapRemove, mapFind, h, ih]

theorem mapFind_mapRemove_ne {α : Type} {k' k : String} (h : k' ≠ k)
    (l : List (String × α)) : mapFind k' (mapRemove k l) = mapFind k' l := by
  induction l with
  | nil => rfl
  | cons kv rest ih =>
    obtain ⟨k₀, v⟩ := kv
    by_cases h0 : k₀ = k
    · subst h0
      simp [mapRemove, mapFind, Ne.symm h, ih]
    · by_cases h1 : k₀ = k'
      · subst h1
        simp [mapRemove, mapFind, h0, h]
      · simp [mapRemove, mapFind, h0, h1, ih]

theorem mapFind_mapAdjust_self {α : Type} (k : String) (f : α → α)
    (l : List (String × α)) : mapFind k (mapAdjust k f l) = (mapFind k l).map f := by
  induction l with
  | nil => rfl
  | cons kv rest ih =>
    obtain ⟨k', v⟩ := kv
    by_cases h : k' = k
    · simp [mapAdjust, mapFind, h]
    · simp [mapAdjust, mapFind, h, ih]

theorem mapFind_mapAdjust_ne {α : Type} {k' k : String} (h : k' ≠ k) (f : α → α)
    (l : List (String × α)) : mapFind k' (mapAdjust k f l) = mapFind k' l := by
  induction l with
  | nil => rfl
  | cons kv rest ih =>
    obtain ⟨k₀, v⟩ := kv
    by_cases h0 : k₀ = k
    · subst h0
      simp [mapAdjust, mapFind, Ne.symm h, ih]
    · by_cases h1 : k₀ = k'
      · subst h1
        simp [mapAdjust, mapFind, h0, h]
      · simp [mapAdjust, mapFind, h0, h1, ih]

theorem mapFind_mapEmplace_self {α : Type} (k : String) (v : α)
    (l : List (String × α)) : mapFind k (mapEmplace k v l) = some v := by
  induction l with
  | nil => simp [mapEmplace, mapFind]
  | cons kv rest ih =>
    obtain ⟨k', v'⟩ := kv
    by_cases h : k' = k
    · simp [mapEmplace, mapFind, h]
    · simp [mapEmplace, mapFind, h, ih]

theorem mapFind_mapEmplace_ne {α : Type} {k' k : String} (h : k' ≠ k) (v : α)
    (l : List (String × α)) : mapFind k' (mapEmplace k v l) = mapFind k' l := by
  induction l with
  | nil => simp [mapEmplace, mapFind, Ne.symm h]
  | cons kv rest ih =>
    obtain ⟨k₀, v₀⟩ := kv
    by_cases h0 : k₀ = k
    · subst h0
      simp [mapEmplace, mapFind, Ne.symm h]
    · by_cases h1 : k₀ = k'
      · subst h1
        simp [mapEmplace, mapFind, h0, h]
      · simp [mapEmplace, mapFind, h0, h1, ih]

theorem mapFind_mapFindOrAddAppend_self {α : Type} (k : String) (t : α)
    (l : List (String × List α)) :
    mapFind k (mapFindOrAddAppend k t l) = some ((mapFind k l).getD [] ++ [t]) := by
  induction l with
  | nil => simp [mapFindOrAddAppend, mapFind]
  | cons kv rest ih =>
    obtain ⟨k', ts⟩ := kv
    by_cases h : k' = k
    · simp [mapFindOrAddAppend, mapFind, h]
    · simp [mapFindOrAddAppend, mapFind, h, ih]

theorem mapFind_mapFindOrAddAppend_ne {α : Type} {k' k : String} (h : k' ≠ k)
    (t : α) (l : List (String × List α)) :
    mapFind k' (mapFindOrAddAppend k t l) = mapFind k' l := by
  induction l with
  | nil => simp [mapFindOrAddAppend, mapFind, Ne.symm h]
  | cons kv rest ih =>
    obtain ⟨k₀, ts⟩ := kv
    by_cases h0 : k₀ = k
    · subst h0
      simp [mapFindOrAddAppend, mapFind, Ne.symm h]
    · by_cases h1 : k₀ = k'
      · subst h1
        simp [mapFindOrAddAppend, mapFind, h0, h]
      · simp [mapFindOrAddAppend, mapFind, h0, h1, ih]

theorem mapFind_mem {α : Type} {k : String} {v : α} :
    ∀ {l : List (String × α)}, mapFind k l = some v → (k, v) ∈ l := by
  intro l
  induction l with
  | nil => intro h; simp [mapFind] at h
  | cons kv rest ih =>
    intro h
    obtain ⟨k', v'⟩ := kv
    by_cases h0 : k' = k
    · subst h0
      simp [mapFind] at h
      subst h
      exact List.mem_cons_self _ _
    · simp [mapFind, h0] at h
      exact List.mem_cons_of_mem _ (ih h)

theorem mapRemove_mem {α : Type} {k : String} {kv : String × α} :
    ∀ {l : List (String × α)}, kv ∈ mapRemove k l → kv ∈ l := by
  intro l
  induction l with
  | nil => intro h; simp [mapRemove] at h
  | cons kv0 rest ih =>
    intro h
    obtain ⟨k', v'⟩ := kv0
    by_cases h0 : k' = k
    · simp only [mapRemove, if_pos h0] at h
      exact List.mem_cons_of_mem _ (ih h)
    · simp only [mapRemove, if_neg h0] at h
      rcases List.mem_cons.mp h with h1 | h1
      · exact h1 ▸ List.mem_cons_self _ _
      · exact List.mem_cons_of_mem _ (ih h1)

theorem mapAdjust_mem {α : Type} {k : String} {f : α → α} {kv : String × α} :
    ∀ {l : List (String × α)}, kv ∈ mapAdjust k f l →
      ∃ v, (kv.1, v) ∈ l ∧ (kv.2 = v ∨ kv.2 = f v) := by
  intro l
  induction l with
  | nil => intro h; simp [mapAdjust] at h
  | cons kv0 rest ih =>
    intro h
    obtain ⟨k', v'⟩ := kv0
    by_cases h0 : k' = k
    · simp only [mapAdjust, if_pos h0] at h
      rcases List.mem_cons.mp h with h1 | h1
      · subst h1
        exact ⟨v', List.mem_cons_self _ _, Or.inr rfl⟩
      · exact ⟨kv.2, List.mem_cons_of_mem _ h1, Or.inl rfl⟩
    · simp only [mapAdjust, if_neg h0] at h
      rcases List.mem_cons.mp h with h1 | h1
      · subst h1
        exact ⟨v', List.mem_cons_self _ _, Or.inl rfl⟩
      · obtain ⟨v, hv, hor⟩ := ih h1
        exact ⟨v, List.mem_cons_of_mem _ hv, hor⟩

theorem mapEmplace_mem {α : Type} {k : String} {v : α} {kv : String × α} :
    ∀ {l : List (String × α)}, kv ∈ mapEmplace k v l → kv = (k, v) ∨ kv ∈ l := by
  intro l
  induction l with
  | nil =>
    intro h
    simp [mapEmplace] at h
    exact Or.inl h
  | cons kv0 rest ih =>
    intro h
    obtain ⟨k', v'⟩ := kv0
    by_cases h0 : k' = k
    · simp only [mapEmplace, if_pos h0] at h
      rcases List.mem_cons.mp h with h1 | h1
      · exact Or.inl h1
      · exact Or.inr (List.mem_cons_of_mem _ h1)
    · simp only [mapEmplace, if_neg h0] at h
      rcases List.mem_cons.mp h with h1 | h1
      · exact Or.inr (h1 ▸ List.mem_cons_self _ _)
      · rcases ih h1 with h2 | h2
        · exact Or.inl h2
        · exact Or.inr (List.mem_cons_of_mem _ h2)

theorem mapFindOrAddAppend_mem {α : Type} {k : String} {t : α} {kv : String × List α} :
    ∀ {l : List (String × List α)}, kv ∈ mapFindOrAddAppend k t l →
      kv ∈ l ∨ ∃ ts, kv = (k, ts ++ [t]) ∧ ((k, ts) ∈ l ∨ ts = []) := by
  intro l
  induction l with
  | nil =>
    intro h
    simp [mapFindOrAddAppend] at h
    exact Or.inr ⟨[], by simp [h], Or.inr rfl⟩
  | cons kv0 rest ih =>
    intro h
    obtain ⟨k', ts'⟩ := kv0
    by_cases h0 : k' = k
    · subst h0
      simp only [mapFindOrAddAppend, if_pos rfl] at h
      rcases List.mem_cons.mp h with h1 | h1
      · exact Or.inr ⟨ts', h1, Or.inl (List.mem_cons_self _ _)⟩
      · exact Or.inl (List.mem_cons_of_mem _ h1)
    · simp only [mapFindOrAddAppend, if_neg h0] at h
      rcases List.mem_cons.mp h with h1 | h1
      · exact Or.inl (h1 ▸ List.mem_cons_self _ _)
      · rcases ih h1 with h2 | ⟨ts, hts, hmem⟩
        · exact Or.inl (List.mem_cons_of_mem _ h2)
        · rcases hmem with hmem | hmem
          · exact Or.inr ⟨ts, hts, Or.inl (List.mem_cons_of_mem _ hmem)⟩
          · exact Or.inr ⟨ts, hts, Or.inr hmem⟩

theorem mapFind_unbindFromOthers (m : Nat) (videoTrackID k : String)
    (l : List (String × FVideoSink)) :
    mapFind k (unbindFromOthers m videoTrackID l) =
      (mapFind k l).map fun s =>
        if k = videoTrackID then s else s.unbindMaterial m := by
  induction l with
  | nil => rfl
  | cons kv rest ih =>
    obtain ⟨k', s⟩ := kv
    by_cases h : k' = k
    · subst h
      simp [unbindFromOthers, mapFind]
    · simp [unbindFromOthers, mapFind, h, ih]

theorem extractFirst_trackID {tid : String} :
    ∀ {l e rest}, extractFirst tid l = some (e, rest) → e.trackID = tid := by
  intro l
  induction l with
  | nil => intro e rest h; simp [extractFirst] at h
  | cons t ts ih =>
    intro e rest h
    by_cases ht : t.trackID = tid
    · rw [extractFirst, if_pos ht] at h
      obtain ⟨he, -⟩ := Prod.mk.injEq .. ▸ Option.some.injEq .. ▸ h
      exact he ▸ ht
    · rw [extractFirst, if_neg ht] at h
      rcases hm : extractFirst tid ts with _ | ⟨e', rest'⟩
      · rw [hm] at h
        simp at h
      · rw [hm] at h
        simp only [Option.some.injEq, Prod.mk.injEq] at h
        obtain ⟨he, -⟩ := h
        exact he ▸ ih hm

theorem runCallback_videoSinks (st : SubsystemState) (cb : FSinkCallback) :
    (runCallback st cb).1.videoSinks = st.videoSinks := by
  cases cb with
  | emitAdded t => rfl
  | drainAdded p t =>
    rw [runCallback]
    split
    · rfl
    · split
      · rfl
      · rfl

theorem runCallback_bufferedAdded (st : SubsystemState) (cb : FSinkCallback) :
    (runCallback st cb).1.bufferedAddedVideoTracks = st.bufferedAddedVideoTracks := by
  cases cb with
  | emitAdded t => rfl
  | drainAdded p t =>
    rw [runCallback]
    split
    · rfl
    · split
      · rfl
      · rfl

theorem runCallback_remoteParticipants (st : SubsystemState) (cb : FSinkCallback) :
    (runCallback st cb).1.remoteParticipants = st.remoteParticipants := by
  cases cb with
  | emitAdded t => rfl
  | drainAdded p t =>
    rw [runCallback]
    split
    · rfl
    · split
      · rfl
      · rfl

theorem runCallback_enabled_mem {st : SubsystemState} {cb : FSinkCallback}
    {tr : FDolbyIOVideoTrack}
    (h : FOut.videoTrackEnabled tr ∈ (runCallback st cb).2) :
    tr.trackID = cbTrackID cb := by
  cases cb with
  | emitAdded t => simp [runCallback] at h
  | drainAdded p t =>
    rw [runCallback] at h
    split at h
    · simp at h
    · split at h
      · simp at h
      · rename_i e rest hm
        simp at h
        subst h
        simpa [cbTrackID] using extractFirst_trackID hm

theorem mapAdjust_not_found {α : Type} {k : String} {l : List (String × α)}
    (h : mapFind k l = none) (f : α → α) : mapAdjust k f l = l := by
  induction l with
  | nil => rfl
  | cons kv rest ih =>
    obtain ⟨k', v⟩ := kv
    by_cases h0 : k' = k
    · simp [mapFind, h0] at h
    · simp only [mapFind, if_neg h0] at h
      simp [mapAdjust, h0, ih h]

/-- C3 counterexample: after `trackAdded ⟨v,p⟩` (buffered, participant
unknown) followed by `trackRemoved ⟨v,p⟩`, the "removed" notification is
broadcast but the pending-added entry for the track is still present, so
the claimed purge of the pending maps does not happen; a later
participant-known drain then fails at the removed track's checked sink
lookup instead of staying silent. -/
theorem C3_counterexample :
    (run initSt [Ev.trackAdded ⟨"v", "p"⟩, Ev.trackRemoved ⟨"v", "p"⟩]).map
        (fun r => (mapFind "p" r.1.bufferedAddedVideoTracks, r.2)) =
      some (some [⟨"v", "p"⟩], [FOut.videoTrackRemoved ⟨"v", "p"⟩]) ∧
    run initSt [Ev.trackAdded ⟨"v", "p"⟩, Ev.trackRemoved ⟨"v", "p"⟩,
        Ev.participantKnown "p"] = none := by
  decide

/-- C3 amended: when the TrackID has a sink, `Handle(const
remote_video_track_removed&)` emits "track removed" unconditionally and
removes the sink, but leaves both pending maps (and the participant
registry) completely unchanged — no pending entry referencing the TrackID
is removed. -/
theorem C3_track_removed_emits_but_no_purge (st : SubsystemState)
    (t : FDolbyIOVideoTrack) (s : FVideoSink)
    (h : mapFind t.trackID st.videoSinks = some s) :
    ∃ st', HandleRemoteVideoTrackRemoved st t = some (st', [FOut.videoTrackRemoved t]) ∧
      st'.bufferedAddedVideoTracks = st.bufferedAddedVideoTracks ∧
      st'.bufferedEnabledVideoTracks = st.bufferedEnabledVideoTracks ∧
      st'.remoteParticipants = st.remoteParticipants ∧
      mapFind t.trackID st'.videoSinks = none := by
  rw [HandleRemoteVideoTrackRemoved, h]
  exact ⟨_, rfl, rfl, rfl, rfl, mapFind_mapRemove_self _ _⟩

theorem C3_track_removed_emits_but_no_purge_witness :
    ∃ st', HandleRemoteVideoTrackRemoved
        { initSt with videoSinks := [("v", freshSink)] } ⟨"v", "p"⟩ =
        some (st', [FOut.videoTrackRemoved ⟨"v", "p"⟩]) ∧
      st'.bufferedAddedVideoTracks = [] ∧
      st'.bufferedEnabledVideoTracks = [] ∧
      st'.remoteParticipants = [] ∧
      mapFind "v" st'.videoSinks = none :=
  C3_track_removed_emits_but_no_purge
    { initSt with videoSinks := [("v", freshSink)] } ⟨"v", "p"⟩ freshSink rfl

/-- C6: on a vfs "enabled" event, if the track's texture already exists the
"track enabled" notification is emitted immediately with no state change;
otherwise nothing is emitted and the track is appended to the
pending-enabled map under its ParticipantID, all other state unchanged. -/
theorem C6_track_enabled_gating (st : SubsystemState) (t : FDolbyIOVideoTrack) :
    (GetTexture st t.trackID = true →
       HandleVfsEvent st [t] [] = (st, [FOut.videoTrackEnabled t])) ∧
    (GetTexture st t.trackID = false →
       (HandleVfsEvent st [t] []).2 = [] ∧
       (HandleVfsEvent st [t] []).1.remoteParticipants = st.remoteParticipants ∧
       (HandleVfsEvent st [t] []).1.videoSinks = st.videoSinks ∧
       (HandleVfsEvent st [t] []).1.bufferedAddedVideoTracks =
         st.bufferedAddedVideoTracks ∧
       mapFind t.participantID (HandleVfsEvent st [t] []).1.bufferedEnabledVideoTracks =
         some ((mapFind t.participantID st.bufferedEnabledVideoTracks).getD [] ++ [t]) ∧
       ∀ q, q ≠ t.participantID →
         mapFind q (HandleVfsEvent st [t] []).1.bufferedEnabledVideoTracks =
           mapFind q st.bufferedEnabledVideoTracks) := by
  constructor
  · intro h
    simp [HandleVfsEvent, handleVfsEnabledList, h]
  · intro h
    refine ⟨?_, ?_, ?_, ?_, ?_, ?_⟩
    · simp [HandleVfsEvent, handleVfsEnabledList, h]
    · simp [HandleVfsEvent, handleVfsEnabledList, h]
    · simp [HandleVfsEvent, handleVfsEnabledList, h]
    · simp [HandleVfsEvent, handleVfsEnabledList, h]
    · simp [HandleVfsEvent, handleVfsEnabledList, h,
        mapFind_mapFindOrAddAppend_self]
    · intro q hq
      simp [HandleVfsEvent, handleVfsEnabledList, h,
        mapFind_mapFindOrAddAppend_ne hq]

theorem C6_track_enabled_gating_witness :
    (HandleVfsEvent { initSt with videoSinks := [("v", { freshSink with textureCreated := true })] }
        [⟨"v", "p"⟩] [] =
      ({ initSt with videoSinks := [("v", { freshSink with textureCreated := true })] },
       [FOut.videoTrackEnabled ⟨"v", "p"⟩])) ∧
    (HandleVfsEvent initSt [⟨"v", "p"⟩] []).2 = [] ∧
    mapFind "p" (HandleVfsEvent initSt [⟨"v", "p"⟩] []).1.bufferedEnabledVideoTracks =
      some [⟨"v", "p"⟩] := by
  refine ⟨(C6_track_enabled_gating _ ⟨"v", "p"⟩).1 (by decide), ?_, ?_⟩
  · exact ((C6_track_enabled_gating initSt ⟨"v", "p"⟩).2 (by decide)).1
  · have h := ((C6_track_enabled_gating initSt ⟨"v", "p"⟩).2 (by decide)).2.2.2.2.1
    simpa using h

/-- C7 counterexample: a track-removed event whose TrackID has no sink is
not a silent no-op — the handler's checked lookup `VideoSinks[TrackID]`
fails (embedded as `none`), so the operation does fail on this state. -/
theorem C7_counterexample :
    HandleRemoteVideoTrackRemoved initSt ⟨"v", "p"⟩ = none ∧
    ∀ r, HandleRemoteVideoTrackRemoved initSt ⟨"v", "p"⟩ ≠ some r := by
  refine ⟨rfl, fun r h => ?_⟩
  rw [show HandleRemoteVideoTrackRemoved initSt ⟨"v", "p"⟩ = none from rfl] at h
  exact Option.noConfusion h

/-- C7 amended: track removal succeeds exactly when the TrackID has a sink
(an unknown TrackID hits the checked lookup instead of being a no-op),
while a participant-known drain for a ParticipantID with no pending
entry is a genuine no-op. -/
theorem C7_removal_checked_drain_total :
    (∀ st (t : FDolbyIOVideoTrack),
       (HandleRemoteVideoTrackRemoved st t).isSome =
         (mapFind t.trackID st.videoSinks).isSome) ∧
    (∀ st p, mapFind p st.bufferedAddedVideoTracks = none →
       ProcessBufferedVideoTracks st p = some (st, [])) := by
  constructor
  · intro st t
    rw [HandleRemoteVideoTrackRemoved]
    rcases mapFind t.trackID st.videoSinks with _ | s
    · rfl
    · rfl
  · intro st p h
    rw [ProcessBufferedVideoTracks, h]

theorem C7_removal_checked_drain_total_witness :
    ProcessBufferedVideoTracks initSt "p" = some (initSt, []) :=
  C7_removal_checked_drain_total.2 initSt "p" rfl

/-- C9: for a VideoTrackID absent from the video-sink map, `GetTexture`
returns null, `UnbindMaterial` changes nothing at all, and `BindMaterial`
binds nothing — every sink keeps its key and gains no bound material (the
loop may only unbind) — and none of the three operations fails. -/
theorem C9_unknown_track_lookup_miss (st : SubsystemState) (m : Nat) (id : String)
    (h : mapFind id st.videoSinks = none) :
    GetTexture st id = false ∧
    UnbindMaterial st m id = st ∧
    (∀ k s', mapFind k (BindMaterial st m id).videoSinks = some s' →
       ∃ s, mapFind k st.videoSinks = some s ∧
         ∀ m', m' ∈ s'.boundMaterials → m' ∈ s.boundMaterials) := by
  refine ⟨?_, ?_, ?_⟩
  · rw [GetTexture, h]
  · rw [UnbindMaterial, mapAdjust_not_found h]
  · intro k s' hfind
    rw [BindMaterial] at hfind
    have h1 : mapFind id (unbindFromOthers m id st.videoSinks) = none := by
      rw [mapFind_unbindFromOthers, h]
      rfl
    rw [mapAdjust_not_found h1] at hfind
    rw [mapFind_unbindFromOthers] at hfind
    rcases h2 : mapFind k st.videoSinks with _ | s
    · rw [h2] at hfind
      exact Option.noConfusion hfind
    · rw [h2] at hfind
      refine ⟨s, rfl, ?_⟩
      intro m' hm'
      simp only [Option.map_some'] at hfind
      by_cases hk : k = id
      · rw [if_pos hk] at hfind
        obtain rfl := Option.some.inj hfind
        exact hm'
      · rw [if_neg hk] at hfind
        have : s' = s.unbindMaterial m := (Option.some.inj hfind).symm
        subst this
        exact List.mem_of_mem_filter hm'

theorem C9_unknown_track_lookup_miss_witness :
    GetTexture initSt "v" = false ∧
    UnbindMaterial initSt 7 "v" = initSt ∧
    (∀ k s', mapFind k (BindMaterial initSt 7 "v").videoSinks = some s' →
       ∃ s, mapFind k initSt.videoSinks = some s ∧
         ∀ m', m' ∈ s'.boundMaterials → m' ∈ s.boundMaterials) :=
  C9_unknown_track_lookup_miss initSt 7 "v" rfl

/-- C10: after `BindMaterial(Material, VideoTrackID)`, the material is
bound to at most one sink — any sink still holding the material is the
target sink, since the loop unbinds it from every other key first. -/
theorem C10_material_bound_to_at_most_one (st : SubsystemState) (m : Nat)
    (id k : String) (s' : FVideoSink)
    (hfind : mapFind k (BindMaterial st m id).videoSinks = some s')
    (hm : m ∈ s'.boundMaterials) : k = id := by
  by_contra hk
  rw [BindMaterial, mapFind_mapAdjust_ne hk, mapFind_unbindFromOthers] at hfind
  rcases h2 : mapFind k st.videoSinks with _ | s
  · rw [h2] at hfind
    exact Option.noConfusion hfind
  · rw [h2] at hfind
    simp only [Option.map_some', if_neg hk] at hfind
    have : s' = s.unbindMaterial m := (Option.some.inj hfind).symm
    subst this
    simp [FVideoSink.unbindMaterial, List.mem_filter] at hm

theorem C10_material_bound_to_at_most_one_witness :
    ("v" : String) = "v" :=
  C10_material_bound_to_at_most_one
    { initSt with videoSinks := [("v", freshSink), ("w", freshSink)] }
    7 "v" "v"
    { freshSink with boundMaterials := [7] }
    (by decide) (by decide)

/-- C8: the connection-state machine only moves along
disconnected → connecting → connected → disconnecting → disconnected.
`Connect` starts the SDK chain (entering connecting) exactly when the SDK
exists, both names are non-empty, and the state is disconnected, and is a
pure no-op otherwise; `Disconnect`, `MuteInput`, `MuteOutput` and
`UpdateViewPoint` make no SDK call and change no state unless connected;
every operation's transition, including the asynchronous completions from
their in-flight states, follows the cycle. -/
theorem C8_connection_state_machine :
    (∀ (a : FSdkAccess) (conf user : String),
       (a.Connect conf user).2 = true ↔
         (a.hasSdk = true ∧ conf.isEmpty = false ∧ user.isEmpty = false ∧
          a.status = EConnState.disconnected)) ∧
    (∀ (a : FSdkAccess) (conf user : String),
       (a.Connect conf user).2 = false → a.Connect conf user = (a, false)) ∧
    (∀ (a : FSdkAccess) (conf user : String),
       (a.Connect conf user).2 = true →
         (a.Connect conf user).1.status = EConnState.connecting ∧
         (a.Connect conf user).1.hasSdk = a.hasSdk) ∧
    (∀ (a : FSdkAccess) (b : Bool), a.status ≠ EConnState.connected →
       a.Disconnect = (a, false) ∧ a.MuteInput b = (a, false) ∧
       a.MuteOutput b = (a, false) ∧ a.UpdateViewPoint = (a, false)) ∧
    (∀ (a : FSdkAccess) (conf user : String),
       cycleOk a.status (a.Connect conf user).1.status) ∧
    (∀ a : FSdkAccess, cycleOk a.status a.Disconnect.1.status) ∧
    (∀ (a : FSdkAccess) (b : Bool), cycleOk a.status (a.MuteInput b).1.status) ∧
    (∀ (a : FSdkAccess) (b : Bool), cycleOk a.status (a.MuteOutput b).1.status) ∧
    (∀ a : FSdkAccess, cycleOk a.status a.UpdateViewPoint.1.status) ∧
    (∀ a : FSdkAccess, a.status = EConnState.connecting →
       cycleOk a.status a.onConnectFinished.status) ∧
    (∀ a : FSdkAccess, a.status = EConnState.disconnecting →
       cycleOk a.status a.onDisconnectFinished.status) := by
  refine ⟨?_, ?_, ?_, ?_, ?_, ?_, ?_, ?_, ?_, ?_, ?_⟩
  · intro a conf user
    obtain ⟨sdk, stat⟩ := a
    cases sdk <;> cases stat <;>
      by_cases hc : conf.isEmpty <;> by_cases hu : user.isEmpty <;>
        simp [FSdkAccess.Connect, hc, hu]
  · intro a conf user h
    obtain ⟨sdk, stat⟩ := a
    cases sdk <;> cases stat <;>
      by_cases hc : conf.isEmpty <;> by_cases hu : user.isEmpty <;>
        simp_all [FSdkAccess.Connect, hc, hu]
  · intro a conf user h
    obtain ⟨sdk, stat⟩ := a
    cases sdk <;> cases stat <;>
      by_cases hc : conf.isEmpty <;> by_cases hu : user.isEmpty <;>
        simp_all [FSdkAccess.Connect, hc, hu]
  · intro a b h
    obtain ⟨sdk, stat⟩ := a
    cases stat <;> simp_all [FSdkAccess.Disconnect, FSdkAccess.MuteInput,
      FSdkAccess.MuteOutput, FSdkAccess.UpdateViewPoint]
  · intro a conf user
    obtain ⟨sdk, stat⟩ := a
    cases sdk <;> cases stat <;>
      by_cases hc : conf.isEmpty <;> by_cases hu : user.isEmpty <;>
        simp [FSdkAccess.Connect, cycleOk, hc, hu]
  · intro a
    obtain ⟨sdk, stat⟩ := a
    cases stat <;> simp [FSdkAccess.Disconnect, cycleOk]
  · intro a b
    obtain ⟨sdk, stat⟩ := a
    cases stat <;> simp [FSdkAccess.MuteInput, cycleOk]
  · intro a b
    obtain ⟨sdk, stat⟩ := a
    cases stat <;> simp [FSdkAccess.MuteOutput, cycleOk]
  · intro a
    obtain ⟨sdk, stat⟩ := a
    cases stat <;> simp [FSdkAccess.UpdateViewPoint, cycleOk]
  · intro a h
    obtain ⟨sdk, stat⟩ := a
    simp_all [FSdkAccess.onConnectFinished, cycleOk]
  · intro a h
    obtain ⟨sdk, stat⟩ := a
    simp_all [FSdkAccess.onDisconnectFinished, cycleOk]

theorem C8_connection_state_machine_witness :
    (FSdkAccess.Connect ⟨true, EConnState.disconnected⟩ "conf" "alice").2 = true ∧
    FSdkAccess.Disconnect ⟨true, EConnState.disconnected⟩ =
      (⟨true, EConnState.disconnected⟩, false) ∧
    cycleOk EConnState.connecting
      (FSdkAccess.onConnectFinished ⟨true, EConnState.connecting⟩).status := by
  refine ⟨?_, ?_, ?_⟩
  · exact (C8_connection_state_machine.1 ⟨true, EConnState.disconnected⟩ "conf" "alice").mpr
      ⟨rfl, by decide, by decide, rfl⟩
  · exact (C8_connection_state_machine.2.2.2.1 ⟨true, EConnState.disconnected⟩ true
      (by decide)).1
  · exact C8_connection_state_machine.2.2.2.2.2.2.2.2.2.1
      ⟨true, EConnState.connecting⟩ rfl

/-- C1: for a fixed (ParticipantID, TrackID) pair, over every interleaving
of the track-added event and the participant-known event (together with the
track's texture creation, which can only follow the track-added event that
registers the sink), exactly one "track added" notification is broadcast,
and it is broadcast only after both the track-added and participant-known
events have occurred, regardless of their relative order. -/
theorem C1_added_exactly_once_after_both (p v : String) :
    (outs [Ev.trackAdded ⟨v, p⟩, Ev.participantKnown p, Ev.textureCreated v] =
       [FOut.videoTrackAdded ⟨v, p⟩] ∧
     ∀ i, FOut.videoTrackAdded ⟨v, p⟩ ∈
         outs (List.take i [Ev.trackAdded ⟨v, p⟩, Ev.participantKnown p,
           Ev.textureCreated v]) →
       Ev.trackAdded ⟨v, p⟩ ∈ List.take i [Ev.trackAdded ⟨v, p⟩,
           Ev.participantKnown p, Ev.textureCreated v] ∧
       Ev.participantKnown p ∈ List.take i [Ev.trackAdded ⟨v, p⟩,
           Ev.participantKnown p, Ev.textureCreated v]) ∧
    (outs [Ev.trackAdded ⟨v, p⟩, Ev.textureCreated v, Ev.participantKnown p] =
       [FOut.videoTrackAdded ⟨v, p⟩] ∧
     ∀ i, FOut.videoTrackAdded ⟨v, p⟩ ∈
         outs (List.take i [Ev.trackAdded ⟨v, p⟩, Ev.textureCreated v,
           Ev.participantKnown p]) →
       Ev.trackAdded ⟨v, p⟩ ∈ List.take i [Ev.trackAdded ⟨v, p⟩,
           Ev.textureCreated v, Ev.participantKnown p] ∧
       Ev.participantKnown p ∈ List.take i [Ev.trackAdded ⟨v, p⟩,
           Ev.textureCreated v, Ev.participantKnown p]) ∧
    (outs [Ev.participantKnown p, Ev.trackAdded ⟨v, p⟩, Ev.textureCreated v] =
       [FOut.videoTrackAdded ⟨v, p⟩] ∧
     ∀ i, FOut.videoTrackAdded ⟨v, p⟩ ∈
         outs (List.take i [Ev.participantKnown p, Ev.trackAdded ⟨v, p⟩,
           Ev.textureCreated v]) →
       Ev.trackAdded ⟨v, p⟩ ∈ List.take i [Ev.participantKnown p,
           Ev.trackAdded ⟨v, p⟩, Ev.textureCreated v] ∧
       Ev.participantKnown p ∈ List.take i [Ev.participantKnown p,
           Ev.trackAdded ⟨v, p⟩, Ev.textureCreated v]) := by
  refine ⟨⟨?_, ?_⟩, ⟨?_, ?_⟩, ⟨?_, ?_⟩⟩
  · simp [outs, run, step, OnParticipantKnown, ProcessBufferedVideoTracks,
      drainLoop, onTextureCreated, runCallback, runCallbacks,
      handleTextureCreated, HandleRemoteVideoTrackAdded, GetTexture, mapFind,
      mapEmplace, mapRemove, mapAdjust, mapFindOrAddAppend, freshSink, initSt,
      extractFirst]
  · intro i h
    rcases i with _ | _ | _ | n
    · simp [outs, run] at h
    · refine absurd h ?_
      rw [show outs (List.take 1 [Ev.trackAdded ⟨v, p⟩, Ev.participantKnown p,
        Ev.textureCreated v]) = [] by
          simp [outs, run, step, OnParticipantKnown, ProcessBufferedVideoTracks,
            drainLoop, onTextureCreated, runCallback, runCallbacks,
            handleTextureCreated, HandleRemoteVideoTrackAdded, GetTexture,
            mapFind, mapEmplace, mapRemove, mapAdjust, mapFindOrAddAppend,
            freshSink, initSt, extractFirst]]
      exact List.not_mem_nil _
    · refine absurd h ?_
      rw [show outs (List.take 2 [Ev.trackAdded ⟨v, p⟩, Ev.participantKnown p,
        Ev.textureCreated v]) = [] by
          simp [outs, run, step, OnParticipantKnown, ProcessBufferedVideoTracks,
            drainLoop, onTextureCreated, runCallback, runCallbacks,
            handleTextureCreated, HandleRemoteVideoTrackAdded, GetTexture,
            mapFind, mapEmplace, mapRemove, mapAdjust, mapFindOrAddAppend,
            freshSink, initSt, extractFirst]]
      exact List.not_mem_nil _
    · rw [List.take_of_length_le (by simp)]
      constructor <;> simp
  · simp [outs, run, step, OnParticipantKnown, ProcessBufferedVideoTracks,
      drainLoop, onTextureCreated, runCallback, runCallbacks,
      handleTextureCreated, HandleRemoteVideoTrackAdded, GetTexture, mapFind,
      mapEmplace, mapRemove, mapAdjust, mapFindOrAddAppend, freshSink, initSt,
      extractFirst]
  · intro i h
    rcases i with _ | _ | _ | n
    · simp [outs, run] at h
    · refine absurd h ?_
      rw [show outs (List.take 1 [Ev.trackAdded ⟨v, p⟩, Ev.textureCreated v,
        Ev.participantKnown p]) = [] by
          simp [outs, run, step, OnParticipantKnown, ProcessBufferedVideoTracks,
            drainLoop, onTextureCreated, runCallback, runCallbacks,
            handleTextureCreated, HandleRemoteVideoTrackAdded, GetTexture,
            mapFind, mapEmplace, mapRemove, mapAdjust, mapFindOrAddAppend,
            freshSink, initSt, extractFirst]]
      exact List.not_mem_nil _
    · refine absurd h ?_
      rw [show outs (List.take 2 [Ev.trackAdded ⟨v, p⟩, Ev.textureCreated v,
        Ev.participantKnown p]) = [] by
          simp [outs, run, step, OnParticipantKnown, ProcessBufferedVideoTracks,
            drainLoop, onTextureCreated, runCallback, runCallbacks,
            handleTextureCreated, HandleRemoteVideoTrackAdded, GetTexture,
            mapFind, mapEmplace, mapRemove, mapAdjust, mapFindOrAddAppend,
            freshSink, initSt, extractFirst]]
      exact List.not_mem_nil _
    · rw [List.take_of_length_le (by simp)]
      constructor <;> simp
  · simp [outs, run, step, OnParticipantKnown, ProcessBufferedVideoTracks,
      drainLoop, onTextureCreated, runCallback, runCallbacks,
      handleTextureCreated, HandleRemoteVideoTrackAdded, GetTexture, mapFind,
      mapEmplace, mapRemove, mapAdjust, mapFindOrAddAppend, freshSink, initSt,
      extractFirst]
  · intro i h
    rcases i with _ | _ | _ | n
    · simp [outs, run] at h
    · refine absurd h ?_
      rw [show outs (List.take 1 [Ev.participantKnown p, Ev.trackAdded ⟨v, p⟩,
        Ev.textureCreated v]) = [] by
          simp [outs, run, step, OnParticipantKnown, ProcessBufferedVideoTracks,
            drainLoop, onTextureCreated, runCallback, runCallbacks,
            handleTextureCreated, HandleRemoteVideoTrackAdded, GetTexture,
            mapFind, mapEmplace, mapRemove, mapAdjust, mapFindOrAddAppend,
            freshSink, initSt, extractFirst]]
      exact List.not_mem_nil _
    · refine absurd h ?_
      rw [show outs (List.take 2 [Ev.participantKnown p, Ev.trackAdded ⟨v, p⟩,
        Ev.textureCreated v]) = [] by
          simp [outs, run, step, OnParticipantKnown, ProcessBufferedVideoTracks,
            drainLoop, onTextureCreated, runCallback, runCallbacks,
            handleTextureCreated, HandleRemoteVideoTrackAdded, GetTexture,
            mapFind, mapEmplace, mapRemove, mapAdjust, mapFindOrAddAppend,
            freshSink, initSt, extractFirst]]
      exact List.not_mem_nil _
    · rw [List.take_of_length_le (by simp)]
      constructor <;> simp

theorem C1_added_exactly_once_after_both_witness :
    outs [Ev.trackAdded ⟨"v", "p"⟩, Ev.participantKnown "p", Ev.textureCreated "v"] =
      [FOut.videoTrackAdded ⟨"v", "p"⟩] ∧
    (Ev.trackAdded ⟨"v", "p"⟩ ∈ List.take 3 [Ev.trackAdded ⟨"v", "p"⟩,
        Ev.participantKnown "p", Ev.textureCreated "v"] ∧
     Ev.participantKnown "p" ∈ List.take 3 [Ev.trackAdded ⟨"v", "p"⟩,
        Ev.participantKnown "p", Ev.textureCreated "v"]) :=
  ⟨(C1_added_exactly_once_after_both "p" "v").1.1,
   (C1_added_exactly_once_after_both "p" "v").1.2 3 (by decide)⟩

/-- C2 counterexample: with participant "p" still unknown, the interleaving
track-added, texture-created, vfs-enabled, participant-known broadcasts
"track enabled" strictly before "track added" for the same TrackID — the
enabled event finds the texture and is emitted immediately while the added
notification is still waiting for the participant. -/
theorem C2_counterexample :
    outs [Ev.trackAdded ⟨"v", "p"⟩, Ev.textureCreated "v", Ev.vfsEnabled ⟨"v", "p"⟩,
        Ev.participantKnown "p"] =
      [FOut.videoTrackEnabled ⟨"v", "p"⟩, FOut.videoTrackAdded ⟨"v", "p"⟩] ∧
    FOut.videoTrackEnabled ⟨"v", "p"⟩ ∈
      (outs [Ev.trackAdded ⟨"v", "p"⟩, Ev.textureCreated "v", Ev.vfsEnabled ⟨"v", "p"⟩,
        Ev.participantKnown "p"]).take 1 ∧
    FOut.videoTrackAdded ⟨"v", "p"⟩ ∉
      (outs [Ev.trackAdded ⟨"v", "p"⟩, Ev.textureCreated "v", Ev.vfsEnabled ⟨"v", "p"⟩,
        Ev.participantKnown "p"]).take 1 := by
  decide

/-- C5 counterexample: tracks v1 then v2 are buffered in that order for the
unknown participant "p", the participant becomes known, and the textures
are created in reverse order — the "added" notifications come out in
texture order [v2, v1], not in the buffered FIFO order [v1, v2]. -/
theorem C5_counterexample :
    outs [Ev.trackAdded ⟨"v1", "p"⟩, Ev.trackAdded ⟨"v2", "p"⟩,
        Ev.participantKnown "p", Ev.textureCreated "v2", Ev.textureCreated "v1"] =
      [FOut.videoTrackAdded ⟨"v2", "p"⟩, FOut.videoTrackAdded ⟨"v1", "p"⟩] ∧
    FOut.videoTrackAdded ⟨"v2", "p"⟩ ∈
      (outs [Ev.trackAdded ⟨"v1", "p"⟩, Ev.trackAdded ⟨"v2", "p"⟩,
        Ev.participantKnown "p", Ev.textureCreated "v2", Ev.textureCreated "v1"]).take 1 ∧
    FOut.videoTrackAdded ⟨"v1", "p"⟩ ∉
      (outs [Ev.trackAdded ⟨"v1", "p"⟩, Ev.trackAdded ⟨"v2", "p"⟩,
        Ev.participantKnown "p", Ev.textureCreated "v2", Ev.textureCreated "v1"]).take 1 := by
  decide

/-- C5 amended: per-participant FIFO order is preserved provided the
tracks' textures are created in buffering order — in particular when both
textures already exist at drain time, or when they are created in order
after the drain; the drain registers the callbacks in buffer order, but the
actual emission order follows texture creation. -/
theorem C5_fifo_given_texture_order (p v1 v2 : String) (h : v1 ≠ v2) :
    outs [Ev.trackAdded ⟨v1, p⟩, Ev.trackAdded ⟨v2, p⟩, Ev.textureCreated v1,
        Ev.textureCreated v2, Ev.participantKnown p] =
      [FOut.videoTrackAdded ⟨v1, p⟩, FOut.videoTrackAdded ⟨v2, p⟩] ∧
    outs [Ev.trackAdded ⟨v1, p⟩, Ev.trackAdded ⟨v2, p⟩, Ev.participantKnown p,
        Ev.textureCreated v1, Ev.textureCreated v2] =
      [FOut.videoTrackAdded ⟨v1, p⟩, FOut.videoTrackAdded ⟨v2, p⟩] := by
  constructor <;>
    simp [outs, run, step, OnParticipantKnown, ProcessBufferedVideoTracks,
      drainLoop, onTextureCreated, runCallback, runCallbacks,
      handleTextureCreated, HandleRemoteVideoTrackAdded, GetTexture, mapFind,
      mapEmplace, mapRemove, mapAdjust, mapFindOrAddAppend, freshSink, initSt,
      extractFirst, h, Ne.symm h]

theorem C5_fifo_given_texture_order_witness :
    outs [Ev.trackAdded ⟨"v1", "p"⟩, Ev.trackAdded ⟨"v2", "p"⟩,
        Ev.textureCreated "v1", Ev.textureCreated "v2", Ev.participantKnown "p"] =
      [FOut.videoTrackAdded ⟨"v1", "p"⟩, FOut.videoTrackAdded ⟨"v2", "p"⟩] :=
  (C5_fifo_given_texture_order "p" "v1" "v2" (by decide)).1

theorem onTextureCreated_ready {st : SubsystemState} {id : String}
    (cb : FSinkCallback) (h : GetTexture st id = true) :
    onTextureCreated st id cb = some (runCallback st cb) := by
  rw [GetTexture] at h
  rcases h1 : mapFind id st.videoSinks with _ | s
  · rw [h1] at h
    exact absurd h (by simp)
  · rw [h1] at h
    have h2 : s.textureCreated = true := h
    simp [onTextureCreated, h1, h2]

theorem runCallback_drain_spec (st : SubsystemState) (p : String)
    (t : FDolbyIOVideoTrack) :
    runCallback st (.drainAdded p t) =
      ({ st with bufferedEnabledVideoTracks :=
           (specDrainMatch p t.trackID st.bufferedEnabledVideoTracks).2 },
       FOut.videoTrackAdded t ::
         (match (specDrainMatch p t.trackID st.bufferedEnabledVideoTracks).1 with
          | some e => [FOut.videoTrackEnabled e]
          | none => [])) := by
  rcases h1 : mapFind p st.bufferedEnabledVideoTracks with _ | ets
  · simp only [runCallback, specDrainMatch, h1]
  · rcases h2 : extractFirst t.trackID ets with _ | ⟨e, rest⟩
    · simp only [runCallback, specDrainMatch, h1, h2]
    · simp only [runCallback, specDrainMatch, h1, h2]

theorem drainLoop_ready (p : String) :
    ∀ (ts : List FDolbyIOVideoTrack) (st : SubsystemState),
    (∀ t ∈ ts, GetTexture st t.trackID = true) →
    drainLoop p st ts =
      some ({ st with bufferedEnabledVideoTracks :=
                (specDrain p ts st.bufferedEnabledVideoTracks).2 },
            (specDrain p ts st.bufferedEnabledVideoTracks).1) := by
  intro ts
  induction ts with
  | nil =>
    intro st h
    simp [drainLoop, specDrain]
  | cons t ts ih =>
    intro st h
    have ht : GetTexture st t.trackID = true := h t (List.mem_cons_self _ _)
    have h1 : ∀ t' ∈ ts,
        GetTexture { st with bufferedEnabledVideoTracks :=
          (specDrainMatch p t.trackID st.bufferedEnabledVideoTracks).2 } t'.trackID
          = true :=
      fun t' ht' => h t' (List.mem_cons_of_mem _ ht')
    simp only [drainLoop, onTextureCreated_ready _ ht, runCallback_drain_spec,
      ih _ h1, specDrain]
    rcases (specDrainMatch p t.trackID st.bufferedEnabledVideoTracks).1 with _ | e
    · simp
    · simp

theorem specDrain_addedTracksOf (p : String) :
    ∀ (ts : List FDolbyIOVideoTrack) (be : List (String × List FDolbyIOVideoTrack)),
    addedTracksOf (specDrain p ts be).1 = ts := by
  intro ts
  induction ts with
  | nil => intro be; rfl
  | cons t ts ih =>
    intro be
    rw [specDrain]
    rcases (specDrainMatch p t.trackID be).1 with _ | e
    · simp [addedTracksOf, List.filterMap_cons] at ih ⊢
      exact ih _
    · simp [addedTracksOf, List.filterMap_cons] at ih ⊢
      exact ih _

theorem ProcessBufferedVideoTracks_found (st : SubsystemState) (p : String)
    (ts : List FDolbyIOVideoTrack)
    (hts : mapFind p st.bufferedAddedVideoTracks = some ts)
    (hready : ∀ t ∈ ts, GetTexture st t.trackID = true) :
    ProcessBufferedVideoTracks st p =
      some ({ st with
                bufferedEnabledVideoTracks :=
                  (specDrain p ts st.bufferedEnabledVideoTracks).2,
                bufferedAddedVideoTracks :=
                  mapRemove p st.bufferedAddedVideoTracks },
            (specDrain p ts st.bufferedEnabledVideoTracks).1) := by
  simp only [ProcessBufferedVideoTracks, hts, drainLoop_ready p ts st hready]

/-- C4 counterexample: the participant-known drain does not unconditionally
emit "track added" for each pending track in FIFO order. With tracks v1
then v2 buffered for the unknown participant "p" (and an "enabled" for v1
pending on its texture), the drain at participant-known emits nothing at
all — although it has already cleared the pending-added entry — and once
the textures complete in reverse order the added broadcasts come out
[v2, v1], the reverse of the buffered FIFO order. -/
theorem C4_counterexample :
    outs [Ev.trackAdded ⟨"v1", "p"⟩, Ev.trackAdded ⟨"v2", "p"⟩,
        Ev.vfsEnabled ⟨"v1", "p"⟩, Ev.participantKnown "p"] = [] ∧
    (run initSt [Ev.trackAdded ⟨"v1", "p"⟩, Ev.trackAdded ⟨"v2", "p"⟩,
        Ev.vfsEnabled ⟨"v1", "p"⟩, Ev.participantKnown "p"]).map
        (fun r => mapFind "p" r.1.bufferedAddedVideoTracks) = some none ∧
    outs [Ev.trackAdded ⟨"v1", "p"⟩, Ev.trackAdded ⟨"v2", "p"⟩,
        Ev.vfsEnabled ⟨"v1", "p"⟩, Ev.participantKnown "p",
        Ev.textureCreated "v2", Ev.textureCreated "v1"] =
      [FOut.videoTrackAdded ⟨"v2", "p"⟩, FOut.videoTrackAdded ⟨"v1", "p"⟩,
       FOut.videoTrackEnabled ⟨"v1", "p"⟩] := by
  decide

/-- C4 amended: whenever a participant record becomes available — via the
participant-added or the participant-updated handler, both of which call
`ProcessBufferedVideoTracks` — the drain clears the pending-added entry for
that participant, and *provided every buffered track's texture already
exists* (otherwise emission is deferred per sink and follows
texture-creation order, see the counterexample), the pending-added tracks
are drained in FIFO order, a "track added" is emitted for each
(`addedTracksOf ... = ts`), with the matching pending "track enabled"
(at most one, removed from the pending-enabled set) immediately after each
added, exactly as `specDrain` prescribes. -/
theorem C4_participant_known_drains (st : SubsystemState) (p : String)
    (ts : List FDolbyIOVideoTrack)
    (hts : mapFind p st.bufferedAddedVideoTracks = some ts)
    (hready : ∀ t ∈ ts, GetTexture st t.trackID = true) :
    ∃ st',
      HandleRemoteParticipantAdded st p =
        some (st', (specDrain p ts st.bufferedEnabledVideoTracks).1) ∧
      HandleRemoteParticipantUpdated st p = HandleRemoteParticipantAdded st p ∧
      addedTracksOf (specDrain p ts st.bufferedEnabledVideoTracks).1 = ts ∧
      mapFind p st'.bufferedAddedVideoTracks = none ∧
      st'.videoSinks = st.videoSinks ∧
      st'.bufferedEnabledVideoTracks =
        (specDrain p ts st.bufferedEnabledVideoTracks).2 := by
  have key := ProcessBufferedVideoTracks_found
    { st with remoteParticipants :=
        if p ∈ st.remoteParticipants then st.remoteParticipants
        else st.remoteParticipants ++ [p] }
    p ts hts hready
  have key2 : HandleRemoteParticipantAdded st p =
      some ({ st with
                remoteParticipants :=
                  if p ∈ st.remoteParticipants then st.remoteParticipants
                  else st.remoteParticipants ++ [p],
                bufferedEnabledVideoTracks :=
                  (specDrain p ts st.bufferedEnabledVideoTracks).2,
                bufferedAddedVideoTracks :=
                  mapRemove p st.bufferedAddedVideoTracks },
            (specDrain p ts st.bufferedEnabledVideoTracks).1) := by
    rw [HandleRemoteParticipantAdded, OnParticipantKnown]
    exact key
  exact ⟨_, key2, rfl, specDrain_addedTracksOf p ts _,
    mapFind_mapRemove_self _ _, rfl, rfl⟩

theorem C4_participant_known_drains_witness :
    ∃ st',
      HandleRemoteParticipantAdded
          { initSt with
              videoSinks := [("v", { freshSink with textureCreated := true })],
              bufferedAddedVideoTracks := [("p", [⟨"v", "p"⟩])],
              bufferedEnabledVideoTracks := [("p", [⟨"v", "p"⟩])] } "p" =
        some (st', (specDrain "p" [⟨"v", "p"⟩] [("p", [⟨"v", "p"⟩])]).1) ∧
      HandleRemoteParticipantUpdated
          { initSt with
              videoSinks := [("v", { freshSink with textureCreated := true })],
              bufferedAddedVideoTracks := [("p", [⟨"v", "p"⟩])],
              bufferedEnabledVideoTracks := [("p", [⟨"v", "p"⟩])] } "p" =
        HandleRemoteParticipantAdded
          { initSt with
              videoSinks := [("v", { freshSink with textureCreated := true })],
              bufferedAddedVideoTracks := [("p", [⟨"v", "p"⟩])],
              bufferedEnabledVideoTracks := [("p", [⟨"v", "p"⟩])] } "p" ∧
      addedTracksOf (specDrain "p" [⟨"v", "p"⟩] [("p", [⟨"v", "p"⟩])]).1 =
        [⟨"v", "p"⟩] ∧
      mapFind "p" st'.bufferedAddedVideoTracks = none ∧
      st'.videoSinks = [("v", { freshSink with textureCreated := true })] ∧
      st'.bufferedEnabledVideoTracks =
        (specDrain "p" [⟨"v", "p"⟩] [("p", [⟨"v", "p"⟩])]).2 :=
  C4_participant_known_drains _ "p" [⟨"v", "p"⟩] (by decide) (by decide)

theorem pastTA_append {es : List Ev} {tid : String} (es' : List Ev)
    (h : pastHasTrackAdded es tid) : pastHasTrackAdded (es ++ es') tid := by
  obtain ⟨p', hp⟩ := h
  exact ⟨p', List.mem_append_left _ hp⟩

theorem pastTA_self (es : List Ev) (t : FDolbyIOVideoTrack) :
    pastHasTrackAdded (es ++ [Ev.trackAdded t]) t.trackID :=
  ⟨t.participantID, List.mem_append_right _ (List.mem_singleton.mpr rfl)⟩

theorem sinksTA_of_eq {es : List Ev} {st st' : SubsystemState}
    (h : st'.videoSinks = st.videoSinks) (hs : sinksTA es st) : sinksTA es st' :=
  fun kv hkv => hs kv (h ▸ hkv)

theorem cbsTA_of_eq {es : List Ev} {st st' : SubsystemState}
    (h : st'.videoSinks = st.videoSinks) (hc : cbsTA es st) : cbsTA es st' :=
  fun kv hkv => hc kv (h ▸ hkv)

theorem bufTA_of_eq {es : List Ev} {st st' : SubsystemState}
    (h : st'.bufferedAddedVideoTracks = st.bufferedAddedVideoTracks)
    (hb : bufTA es st) : bufTA es st' :=
  fun kv hkv => hb kv (h ▸ hkv)

theorem runCallbacks_videoSinks :
    ∀ (cbs : List FSinkCallback) (st : SubsystemState),
    (runCallbacks st cbs).1.videoSinks = st.videoSinks := by
  intro cbs
  induction cbs with
  | nil => intro st; rfl
  | cons cb cbs ih =>
    intro st
    rw [runCallbacks]
    rw [ih, runCallback_videoSinks]

theorem runCallbacks_bufferedAdded :
    ∀ (cbs : List FSinkCallback) (st : SubsystemState),
    (runCallbacks st cbs).1.bufferedAddedVideoTracks =
      st.bufferedAddedVideoTracks := by
  intro cbs
  induction cbs with
  | nil => intro st; rfl
  | cons cb cbs ih =>
    intro st
    rw [runCallbacks]
    rw [ih, runCallback_bufferedAdded]

theorem runCallbacks_enabled_mem {P : String → Prop} :
    ∀ (cbs : List FSinkCallback) (st : SubsystemState),
    (∀ cb ∈ cbs, P (cbTrackID cb)) →
    ∀ tr, FOut.videoTrackEnabled tr ∈ (runCallbacks st cbs).2 → P tr.trackID := by
  intro cbs
  induction cbs with
  | nil => intro st hP tr h; simp [runCallbacks] at h
  | cons cb cbs ih =>
    intro st hP tr h
    rw [runCallbacks] at h
    rcases List.mem_append.mp h with h1 | h1
    · exact runCallback_enabled_mem h1 ▸ hP cb (List.mem_cons_self _ _)
    · exact ih _ (fun cb' hcb' => hP cb' (List.mem_cons_of_mem _ hcb')) tr h1

theorem onTextureCreated_TA {es2 : List Ev} {st st' : SubsystemState}
    {os : List FOut} {id : String} {cb : FSinkCallback}
    (hs : sinksTA es2 st) (hc : cbsTA es2 st) (hb : bufTA es2 st)
    (hcb : pastHasTrackAdded es2 (cbTrackID cb))
    (h : onTextureCreated st id cb = some (st', os)) :
    sinksTA es2 st' ∧ cbsTA es2 st' ∧ bufTA es2 st' ∧
    (∀ tr, FOut.videoTrackEnabled tr ∈ os → pastHasTrackAdded es2 tr.trackID) := by
  rw [onTextureCreated] at h
  rcases h1 : mapFind id st.videoSinks with _ | s
  · rw [h1] at h
    exact absurd h (by simp)
  · rw [h1] at h
    have h' : (if s.textureCreated = true then some (runCallback st cb) else some ({ st with videoSinks := mapAdjust id (fun s' => { s' with pendingCallbacks := s'.pendingCallbacks ++ [cb] }) st.videoSinks }, ([] : List FOut))) = some (st', os) := h
    by_cases ht : s.textureCreated
    · rw [if_pos ht] at h'
      have h2 := Option.some.inj h'
      have hfst : (runCallback st cb).1 = st' := congrArg Prod.fst h2
      have hsnd : (runCallback st cb).2 = os := congrArg Prod.snd h2
      refine ⟨sinksTA_of_eq ?_ hs, cbsTA_of_eq ?_ hc, bufTA_of_eq ?_ hb, ?_⟩
      · rw [← hfst, runCallback_videoSinks]
      · rw [← hfst, runCallback_videoSinks]
      · rw [← hfst, runCallback_bufferedAdded]
      · intro tr htr
        rw [← hsnd] at htr
        exact runCallback_enabled_mem htr ▸ hcb
    · rw [if_neg ht] at h'
      have h2 := Option.some.inj h'
      have hfst : ({ st with videoSinks := mapAdjust id (fun s' => { s' with pendingCallbacks := s'.pendingCallbacks ++ [cb] }) st.videoSinks } : SubsystemState) = st' := congrArg Prod.fst h2
      have hsnd : ([] : List FOut) = os := congrArg Prod.snd h2
      refine ⟨?_, ?_, ?_, ?_⟩
      · intro kv hkv
        rw [← hfst] at hkv
        obtain ⟨v, hv, -⟩ := mapAdjust_mem hkv
        exact hs (kv.1, v) hv
      · intro kv hkv cb' hcb'
        rw [← hfst] at hkv
        obtain ⟨v, hv, hor⟩ := mapAdjust_mem hkv
        rcases hor with hv2 | hv2
        · exact hc (kv.1, v) hv cb' (hv2 ▸ hcb')
        · rw [hv2] at hcb'
          rcases List.mem_append.mp hcb' with h3 | h3
          · exact hc (kv.1, v) hv cb' h3
          · rw [List.mem_singleton.mp h3]
            exact hcb
      · intro kv hkv
        rw [← hfst] at hkv
        exact hb kv hkv
      · intro tr htr
        rw [← hsnd] at htr
        simp at htr

theorem drainLoop_TA {es2 : List Ev} (p : String) :
    ∀ (ts : List FDolbyIOVideoTrack) (st : SubsystemState),
    (∀ t ∈ ts, pastHasTrackAdded es2 t.trackID) →
    sinksTA es2 st → cbsTA es2 st → bufTA es2 st →
    ∀ {st' : SubsystemState} {os : List FOut}, drainLoop p st ts = some (st', os) →
    sinksTA es2 st' ∧ cbsTA es2 st' ∧ bufTA es2 st' ∧
    (∀ tr, FOut.videoTrackEnabled tr ∈ os → pastHasTrackAdded es2 tr.trackID) := by
  intro ts
  induction ts with
  | nil =>
    intro st hts hs hc hb st' os h
    have hfst : st = st' := congrArg Prod.fst (Option.some.inj h)
    have hsnd : ([] : List FOut) = os := congrArg Prod.snd (Option.some.inj h)
    subst hfst
    refine ⟨hs, hc, hb, ?_⟩
    intro tr htr
    rw [← hsnd] at htr
    simp at htr
  | cons t ts ih =>
    intro st hts hs hc hb st' os h
    rw [drainLoop] at h
    rcases h1 : onTextureCreated st t.trackID (.drainAdded p t) with _ | ⟨st1, os1⟩
    · rw [h1] at h
      exact absurd h (by simp)
    · rw [h1] at h
      have h' : (match drainLoop p st1 ts with
          | none => none
          | some (st2, os2) => some (st2, os1 ++ os2)) = some (st', os) := h
      rcases h2 : drainLoop p st1 ts with _ | ⟨st2, os2⟩
      · rw [h2] at h'
        exact absurd h' (by simp)
      · rw [h2] at h'
        have h'' : some (st2, os1 ++ os2) = some (st', os) := h'
        have hfst : st2 = st' := congrArg Prod.fst (Option.some.inj h'')
        have hsnd : os1 ++ os2 = os := congrArg Prod.snd (Option.some.inj h'')
        obtain ⟨hs1, hc1, hb1, ho1⟩ :=
          @onTextureCreated_TA es2 st st1 os1 t.trackID
            (FSinkCallback.drainAdded p t) hs hc hb
            (hts t (List.mem_cons_self _ _)) h1
        obtain ⟨hs2, hc2, hb2, ho2⟩ :=
          ih st1 (fun t' ht' => hts t' (List.mem_cons_of_mem _ ht')) hs1 hc1 hb1 h2
        subst hfst
        refine ⟨hs2, hc2, hb2, ?_⟩
        intro tr htr
        rw [← hsnd] at htr
        rcases List.mem_append.mp htr with hm | hm
        · exact ho1 tr hm
        · exact ho2 tr hm

theorem handleTextureCreated_TA {es2 : List Ev} {st : SubsystemState} {id : String}
    (hs : sinksTA es2 st) (hc : cbsTA es2 st) (hb : bufTA es2 st) :
    sinksTA es2 (handleTextureCreated st id).1 ∧
    cbsTA es2 (handleTextureCreated st id).1 ∧
    bufTA es2 (handleTextureCreated st id).1 ∧
    (∀ tr, FOut.videoTrackEnabled tr ∈ (handleTextureCreated st id).2 →
      pastHasTrackAdded es2 tr.trackID) := by
  rcases h1 : mapFind id st.videoSinks with _ | s
  · have he : handleTextureCreated st id = (st, []) := by
      rw [handleTextureCreated, h1]
    rw [he]
    refine ⟨hs, hc, hb, ?_⟩
    intro tr htr
    simp at htr
  · have he : handleTextureCreated st id =
        runCallbacks { st with videoSinks := mapAdjust id (fun s' => { s' with textureCreated := true, pendingCallbacks := [] }) st.videoSinks } s.pendingCallbacks := by
      rw [handleTextureCreated, h1]
    rw [he]
    have hs1 : sinksTA es2 { st with videoSinks := mapAdjust id (fun s' => { s' with textureCreated := true, pendingCallbacks := [] }) st.videoSinks } := by
      intro kv hkv
      obtain ⟨v, hv, -⟩ := mapAdjust_mem hkv
      exact hs (kv.1, v) hv
    have hc1 : cbsTA es2 { st with videoSinks := mapAdjust id (fun s' => { s' with textureCreated := true, pendingCallbacks := [] }) st.videoSinks } := by
      intro kv hkv cb' hcb'
      obtain ⟨v, hv, hor⟩ := mapAdjust_mem hkv
      rcases hor with h2 | h2
      · exact hc (kv.1, v) hv cb' (h2 ▸ hcb')
      · rw [h2] at hcb'
        simp at hcb'
    have hb1 : bufTA es2 { st with videoSinks := mapAdjust id (fun s' => { s' with textureCreated := true, pendingCallbacks := [] }) st.videoSinks } := hb
    refine ⟨sinksTA_of_eq (runCallbacks_videoSinks _ _) hs1,
      cbsTA_of_eq (runCallbacks_videoSinks _ _) hc1,
      bufTA_of_eq (runCallbacks_bufferedAdded _ _) hb1, ?_⟩
    intro tr htr
    refine runCallbacks_enabled_mem s.pendingCallbacks _ ?_ tr htr
    intro cb hcb
    exact hc (id, s) (mapFind_mem h1) cb hcb

theorem step_TA {es : List Ev} {st st' : SubsystemState} {e : Ev} {os : List FOut}
    (hs : sinksTA es st) (hc : cbsTA es st) (hb : bufTA es st)
    (h : step st e = some (st', os)) :
    sinksTA (es ++ [e]) st' ∧ cbsTA (es ++ [e]) st' ∧ bufTA (es ++ [e]) st' ∧
    (∀ tr, FOut.videoTrackEnabled tr ∈ os →
      pastHasTrackAdded (es ++ [e]) tr.trackID) := by
  have hs' : sinksTA (es ++ [e]) st := fun kv hkv => pastTA_append _ (hs kv hkv)
  have hc' : cbsTA (es ++ [e]) st :=
    fun kv hkv cb hcb => pastTA_append _ (hc kv hkv cb hcb)
  have hb' : bufTA (es ++ [e]) st :=
    fun kv hkv t ht => pastTA_append _ (hb kv hkv t ht)
  cases e with
  | participantKnown p =>
    rw [step, OnParticipantKnown] at h
    have hrp : ProcessBufferedVideoTracks { st with remoteParticipants := if p ∈ st.remoteParticipants then st.remoteParticipants else st.remoteParticipants ++ [p] } p = some (st', os) := h
    rw [ProcessBufferedVideoTracks] at hrp
    rcases h1 : mapFind p st.bufferedAddedVideoTracks with _ | ts
    · rw [show mapFind p ({ st with remoteParticipants := if p ∈ st.remoteParticipants then st.remoteParticipants else st.remoteParticipants ++ [p] } : SubsystemState).bufferedAddedVideoTracks = none from h1] at hrp
      have hfst : ({ st with remoteParticipants := if p ∈ st.remoteParticipants then st.remoteParticipants else st.remoteParticipants ++ [p] } : SubsystemState) = st' := congrArg Prod.fst (Option.some.inj hrp)
      have hsnd : ([] : List FOut) = os := congrArg Prod.snd (Option.some.inj hrp)
      refine ⟨?_, ?_, ?_, ?_⟩
      · intro kv hkv
        rw [← hfst] at hkv
        exact hs' kv hkv
      · intro kv hkv cb hcb
        rw [← hfst] at hkv
        exact hc' kv hkv cb hcb
      · intro kv hkv
        rw [← hfst] at hkv
        exact hb' kv hkv
      · intro tr htr
        rw [← hsnd] at htr
        simp at htr
    · rw [show mapFind p ({ st with remoteParticipants := if p ∈ st.remoteParticipants then st.remoteParticipants else st.remoteParticipants ++ [p] } : SubsystemState).bufferedAddedVideoTracks = some ts from h1] at hrp
      have h' : (match drainLoop p { st with remoteParticipants := if p ∈ st.remoteParticipants then st.remoteParticipants else st.remoteParticipants ++ [p] } ts with
          | none => none
          | some (st1, os1) =>
            some ({ st1 with bufferedAddedVideoTracks :=
                      mapRemove p st1.bufferedAddedVideoTracks }, os1)) =
          some (st', os) := hrp
      rcases h2 : drainLoop p { st with remoteParticipants := if p ∈ st.remoteParticipants then st.remoteParticipants else st.remoteParticipants ++ [p] } ts with _ | ⟨st1, os1⟩
      · rw [h2] at h'
        exact absurd h' (by simp)
      · rw [h2] at h'
        have hfst : ({ st1 with bufferedAddedVideoTracks := mapRemove p st1.bufferedAddedVideoTracks } : SubsystemState) = st' := congrArg Prod.fst (Option.some.inj h')
        have hsnd : os1 = os := congrArg Prod.snd (Option.some.inj h')
        have hts : ∀ t ∈ ts, pastHasTrackAdded (es ++ [Ev.participantKnown p]) t.trackID :=
          fun t ht => hb' (p, ts) (mapFind_mem h1) t ht
        obtain ⟨hs1, hc1, hb1, ho1⟩ := drainLoop_TA p ts
          { st with remoteParticipants := if p ∈ st.remoteParticipants then st.remoteParticipants else st.remoteParticipants ++ [p] }
          hts hs' hc' hb' h2
        refine ⟨?_, ?_, ?_, ?_⟩
        · intro kv hkv
          rw [← hfst] at hkv
          exact hs1 kv hkv
        · intro kv hkv cb hcb
          rw [← hfst] at hkv
          exact hc1 kv hkv cb hcb
        · intro kv hkv
          rw [← hfst] at hkv
          exact hb1 kv (mapRemove_mem hkv)
        · intro tr htr
          rw [← hsnd] at htr
          exact ho1 tr htr
  | trackAdded t =>
    rw [step, HandleRemoteVideoTrackAdded] at h
    have hs1 : sinksTA (es ++ [Ev.trackAdded t]) { st with videoSinks := mapEmplace t.trackID freshSink st.videoSinks } := by
      intro kv hkv
      rcases mapEmplace_mem hkv with h2 | h2
      · rw [h2]
        exact pastTA_self es t
      · exact hs' kv h2
    have hc1 : cbsTA (es ++ [Ev.trackAdded t]) { st with videoSinks := mapEmplace t.trackID freshSink st.videoSinks } := by
      intro kv hkv cb hcb
      rcases mapEmplace_mem hkv with h2 | h2
      · rw [h2] at hcb
        simp [freshSink] at hcb
      · exact hc' kv h2 cb hcb
    have hb1 : bufTA (es ++ [Ev.trackAdded t]) { st with videoSinks := mapEmplace t.trackID freshSink st.videoSinks } := hb'
    have h' : (if t.participantID ∈ st.remoteParticipants then onTextureCreated { st with videoSinks := mapEmplace t.trackID freshSink st.videoSinks } t.trackID (.emitAdded t) else some ({ st with videoSinks := mapEmplace t.trackID freshSink st.videoSinks, bufferedAddedVideoTracks := mapFindOrAddAppend t.participantID t st.bufferedAddedVideoTracks }, ([] : List FOut))) = some (st', os) := h
    by_cases hmem : t.participantID ∈ st.remoteParticipants
    · rw [if_pos hmem] at h'
      exact @onTextureCreated_TA (es ++ [Ev.trackAdded t])
        { st with videoSinks := mapEmplace t.trackID freshSink st.videoSinks }
        st' os t.trackID (FSinkCallback.emitAdded t) hs1 hc1 hb1
        (pastTA_self es t) h'
    · rw [if_neg hmem] at h'
      have hfst : ({ st with videoSinks := mapEmplace t.trackID freshSink st.videoSinks, bufferedAddedVideoTracks := mapFindOrAddAppend t.participantID t st.bufferedAddedVideoTracks } : SubsystemState) = st' := congrArg Prod.fst (Option.some.inj h')
      have hsnd : ([] : List FOut) = os := congrArg Prod.snd (Option.some.inj h')
      refine ⟨?_, ?_, ?_, ?_⟩
      · intro kv hkv
        rw [← hfst] at hkv
        exact hs1 kv hkv
      · intro kv hkv cb hcb
        rw [← hfst] at hkv
        exact hc1 kv hkv cb hcb
      · intro kv hkv
        rw [← hfst] at hkv
        rcases mapFindOrAddAppend_mem hkv with h2 | ⟨ts0, hts0, hmem0⟩
        · exact hb' kv h2
        · intro t' ht'
          rw [hts0] at ht'
          rcases List.mem_append.mp ht' with h3 | h3
          · rcases hmem0 with hmem0 | hmem0
            · exact hb' (t.participantID, ts0) hmem0 t' h3
            · rw [hmem0] at h3
              simp at h3
          · rw [List.mem_singleton.mp h3]
            exact pastTA_self es t
      · intro tr htr
        rw [← hsnd] at htr
        simp at htr
  | trackRemoved t =>
    rw [step, HandleRemoteVideoTrackRemoved] at h
    rcases h1 : mapFind t.trackID st.videoSinks with _ | s
    · rw [h1] at h
      exact absurd h (by simp)
    · rw [h1] at h
      have h' : some (({ st with videoSinks := mapRemove t.trackID (mapAdjust t.trackID FVideoSink.unbindAllMaterials st.videoSinks) } : SubsystemState), [FOut.videoTrackRemoved t]) = some (st', os) := h
      have hfst : ({ st with videoSinks := mapRemove t.trackID (mapAdjust t.trackID FVideoSink.unbindAllMaterials st.videoSinks) } : SubsystemState) = st' := congrArg Prod.fst (Option.some.inj h')
      have hsnd : [FOut.videoTrackRemoved t] = os := congrArg Prod.snd (Option.some.inj h')
      refine ⟨?_, ?_, ?_, ?_⟩
      · intro kv hkv
        rw [← hfst] at hkv
        obtain ⟨v, hv, -⟩ := mapAdjust_mem (mapRemove_mem hkv)
        exact hs' (kv.1, v) hv
      · intro kv hkv cb hcb
        rw [← hfst] at hkv
        obtain ⟨v, hv, hor⟩ := mapAdjust_mem (mapRemove_mem hkv)
        rcases hor with h2 | h2
        · exact hc' (kv.1, v) hv cb (h2 ▸ hcb)
        · rw [h2] at hcb
          exact hc' (kv.1, v) hv cb hcb
      · intro kv hkv
        rw [← hfst] at hkv
        exact hb' kv hkv
      · intro tr htr
        rw [← hsnd] at htr
        simp at htr
  | vfsEnabled t =>
    rw [step] at h
    have h2 := Option.some.inj h
    by_cases hg : GetTexture st t.trackID
    · have he : HandleVfsEvent st [t] [] = (st, [FOut.videoTrackEnabled t]) := by
        simp [HandleVfsEvent, handleVfsEnabledList, hg]
      rw [he] at h2
      have hfst : st = st' := congrArg Prod.fst h2
      have hsnd : [FOut.videoTrackEnabled t] = os := congrArg Prod.snd h2
      subst hfst
      refine ⟨hs', hc', hb', ?_⟩
      intro tr htr
      rw [← hsnd] at htr
      have htt : tr = t := by simpa using htr
      rw [htt]
      rw [GetTexture] at hg
      rcases h1 : mapFind t.trackID st.videoSinks with _ | s
      · rw [h1] at hg
        simp at hg
      · exact hs' (t.trackID, s) (mapFind_mem h1)
    · have hg' : GetTexture st t.trackID = false := by
        simpa using hg
      have he : HandleVfsEvent st [t] [] = ({ st with bufferedEnabledVideoTracks := mapFindOrAddAppend t.participantID t st.bufferedEnabledVideoTracks }, []) := by
        simp [HandleVfsEvent, handleVfsEnabledList, hg']
      rw [he] at h2
      have hfst : ({ st with bufferedEnabledVideoTracks := mapFindOrAddAppend t.participantID t st.bufferedEnabledVideoTracks } : SubsystemState) = st' := congrArg Prod.fst h2
      have hsnd : ([] : List FOut) = os := congrArg Prod.snd h2
      refine ⟨?_, ?_, ?_, ?_⟩
      · intro kv hkv
        rw [← hfst] at hkv
        exact hs' kv hkv
      · intro kv hkv cb hcb
        rw [← hfst] at hkv
        exact hc' kv hkv cb hcb
      · intro kv hkv
        rw [← hfst] at hkv
        exact hb' kv hkv
      · intro tr htr
        rw [← hsnd] at htr
        simp at htr
  | vfsDisabled t =>
    rw [step] at h
    have h2 := Option.some.inj h
    have he : HandleVfsEvent st [] [t] = (st, [FOut.videoTrackDisabled t]) := by
      simp [HandleVfsEvent, handleVfsEnabledList]
    rw [he] at h2
    have hfst : st = st' := congrArg Prod.fst h2
    have hsnd : [FOut.videoTrackDisabled t] = os := congrArg Prod.snd h2
    subst hfst
    refine ⟨hs', hc', hb', ?_⟩
    intro tr htr
    rw [← hsnd] at htr
    simp at htr
  | textureCreated id =>
    rw [step] at h
    have h2 := Option.some.inj h
    have hfst : (handleTextureCreated st id).1 = st' := congrArg Prod.fst h2
    have hsnd : (handleTextureCreated st id).2 = os := congrArg Prod.snd h2
    obtain ⟨a1, a2, a3, a4⟩ := handleTextureCreated_TA hs' hc' hb'
    refine ⟨hfst ▸ a1, hfst ▸ a2, hfst ▸ a3, ?_⟩
    intro tr htr
    rw [← hsnd] at htr
    exact a4 tr htr

theorem run_TA :
    ∀ (es : List Ev) (st : SubsystemState) (es0 : List Ev),
    sinksTA es0 st → cbsTA es0 st → bufTA es0 st →
    ∀ {st' : SubsystemState} {os : List FOut}, run st es = some (st', os) →
    ∀ tr, FOut.videoTrackEnabled tr ∈ os →
      pastHasTrackAdded (es0 ++ es) tr.trackID := by
  intro es
  induction es with
  | nil =>
    intro st es0 hs hc hb st' os h tr htr
    have hsnd : ([] : List FOut) = os := congrArg Prod.snd (Option.some.inj h)
    rw [← hsnd] at htr
    simp at htr
  | cons e es ih =>
    intro st es0 hs hc hb st' os h tr htr
    rw [run] at h
    rcases h1 : step st e with _ | ⟨st1, os1⟩
    · rw [h1] at h
      exact absurd h (by simp)
    · rw [h1] at h
      have h' : (match run st1 es with
          | none => none
          | some (st2, os2) => some (st2, os1 ++ os2)) = some (st', os) := h
      rcases h2 : run st1 es with _ | ⟨st2, os2⟩
      · rw [h2] at h'
        exact absurd h' (by simp)
      · rw [h2] at h'
        have hsnd : os1 ++ os2 = os := congrArg Prod.snd (Option.some.inj h')
        obtain ⟨hs1, hc1, hb1, ho1⟩ := step_TA hs hc hb h1
        have hassoc : (es0 ++ [e]) ++ es = es0 ++ (e :: es) := by simp
        rw [← hsnd] at htr
        rcases List.mem_append.mp htr with hm | hm
        · have := ho1 tr hm
          rw [← hassoc]
          exact pastTA_append es this
        · have := ih st1 (es0 ++ [e]) hs1 hc1 hb1 h2 tr hm
          rw [← hassoc]
          exact this

/-- C2 amended: a "track enabled" notification can be emitted before the
"track added" notification for the same TrackID (see the counterexample),
but never before the track-added *event* for that TrackID has been
processed: every enabled broadcast of any run is preceded by a
`remote_video_track_added` event carrying the same TrackID. -/
theorem C2_enabled_requires_track_added_event (es : List Ev)
    (tr : FDolbyIOVideoTrack) (h : FOut.videoTrackEnabled tr ∈ outs es) :
    ∃ p', Ev.trackAdded ⟨tr.trackID, p'⟩ ∈ es := by
  rw [outs] at h
  rcases h1 : run initSt es with _ | ⟨st', os⟩
  · rw [h1] at h
    simp at h
  · rw [h1] at h
    have h' : FOut.videoTrackEnabled tr ∈ os := h
    have h0s : sinksTA [] initSt := by
      intro kv hkv
      simp [initSt] at hkv
    have h0c : cbsTA [] initSt := by
      intro kv hkv
      simp [initSt] at hkv
    have h0b : bufTA [] initSt := by
      intro kv hkv
      simp [initSt] at hkv
    have hta := run_TA es initSt [] h0s h0c h0b h1 tr h'
    rw [List.nil_append] at hta
    exact hta

theorem C2_enabled_requires_track_added_event_witness :
    ∃ p', Ev.trackAdded ⟨"v", p'⟩ ∈
      [Ev.trackAdded ⟨"v", "p"⟩, Ev.textureCreated "v", Ev.vfsEnabled ⟨"v", "p"⟩] :=
  C2_enabled_requires_track_added_event
    [Ev.trackAdded ⟨"v", "p"⟩, Ev.textureCreated "v", Ev.vfsEnabled ⟨"v", "p"⟩]
    ⟨"v", "p"⟩ (by decide)
